import Mathlib

/-!
Verification of the document layout engine in `document_generator.py` of the
brief-generator repository.  The Python module converts analyzer / script /
product-fact dictionaries into a Markdown brief and a PDF; the PDF path lays
out markdown tables onto fixed-size pages via the fpdf backend.

This file shallowly embeds the layout pipeline:

* `getImagePath`, `splitRowCells`, `renderTableRow`, `renderTable` embed
  `_get_image_path`, `_split_row_cells`, `_render_table_row`, `_render_table`;
* `parseTableBlock`, `maxTableColumns`, `scenesTable`, `makeBriefPdf` embed the
  markdown-side helpers and the top-level PDF driver.

Modelling conventions:

* machine floats are modelled as `ℚ` (the layout arithmetic is +, *, /, min,
  max and comparisons, all exact on the inputs we reason about);
* the fpdf backend (string measurement, line wrapping, page geometry) and the
  PIL image loader are explicit parameters collected in `Backend`;
* fpdf draw primitives (`multi_cell` on a pre-wrapped line, `rect`, `image`)
  are modelled as emitted draw instructions; `FPDFException` raised by the
  wrapping call is an `Except.error` of the backend's `split` function, and a
  `PIL.Image.open` failure is an `Except.error` carrying the path;
* Python dictionaries holding document data are modelled as structures whose
  fields are the values the Python code extracts from them.
-/

deriving instance DecidableEq for Except

namespace BriefGen

/-! ## Python-semantics string helpers -/

/-- Python `str.strip()` restricted to one side: drop leading characters
satisfying `p` from a character list. -/
def dropLeading (p : Char → Bool) (cs : List Char) : List Char :=
  cs.dropWhile p

/-- Drop trailing characters satisfying `p` from a character list. -/
def dropTrailing (p : Char → Bool) (cs : List Char) : List Char :=
  (cs.reverse.dropWhile p).reverse

/-- Python `s.strip()`: remove leading and trailing whitespace. -/
def pyStrip (s : String) : String :=
  String.mk (dropTrailing Char.isWhitespace (dropLeading Char.isWhitespace s.data))

/-- Python `s.strip("|")`: remove *all* leading and trailing `|` characters. -/
def stripBars (s : String) : String :=
  String.mk (dropTrailing (fun c => c = '|') (dropLeading (fun c => c = '|') s.data))

/-- Core of Python `s.split(sep)` for a one-character separator: split a
character list at every occurrence of `sep`.  `"".split(sep)` yields `[""]`,
matching Python. -/
def splitCharAux (sep : Char) : List Char → List (List Char)
  | [] => [[]]
  | c :: rest =>
    match splitCharAux sep rest with
    | [] => if c = sep then [[], [c]] else [[c]]  -- unreachable: result is never []
    | g :: gs => if c = sep then [] :: g :: gs else (c :: g) :: gs

/-- Python `s.split(sep)` for a one-character separator. -/
def pySplitChar (sep : Char) (s : String) : List String :=
  (splitCharAux sep s.data).map String.mk

/-- Python `s.startswith(pfx)`. -/
def pyStartsWith (s pfx : String) : Bool :=
  s.data.take pfx.data.length == pfx.data

/-- Python `a or b` for an optional string `a` (`None` and `""` are falsy). -/
def pyOrS (a : Option String) (b : String) : String :=
  match a with
  | some s => if s = "" then b else s
  | none => b

/-- Python `a or b` for a float `a` (only `0.0` is falsy here; the widths this
is applied to are non-negative). -/
def pyOrQ (a b : ℚ) : ℚ :=
  if a = 0 then b else a

/-- `_safe`: `(str(x) if x is not None else "").replace("\n", " ").strip()`,
on a value already rendered to a string. -/
def safeStr (s : String) : String :=
  pyStrip (String.mk (s.data.map (fun c => if c = '\n' then ' ' else c)))

/-- Python `s.lower()` (ASCII case folding suffices for the extension
check). -/
def pyLower (s : String) : String :=
  String.mk (s.data.map Char.toLower)

/-! ## Cells and image-path detection (`_get_image_path`) -/

/-- A table-cell value as the Python code receives it: a string, a
`{"image": path}` dictionary, or `None`. -/
inductive PyCell where
  | str (s : String)
  | imgDict (path : String)
  | pyNone
deriving DecidableEq, Repr

/-- `pathlib.Path(p).name`: the final path component. -/
def pathName (p : String) : String :=
  match (pySplitChar '/' p).filter (fun c => c ≠ "") with
  | [] => ""
  | cs => cs.getLastD ""

/-- `pathlib.Path(p).suffix`: the extension of the final component, i.e. the
slice of the name from its last dot, provided that dot is neither the first
nor the last character of the name. -/
def pathSuffix (p : String) : String :=
  let name := (pathName p).data
  match ((List.range name.length).filter (fun i => name.getD i ' ' = '.')).getLast? with
  | some i => if 0 < i ∧ i < name.length - 1 then String.mk (name.drop i) else ""
  | none => ""

/-- `_IMAGE_EXTENSIONS`. -/
def IMAGE_EXTENSIONS : List String := [".png", ".jpg", ".jpeg", ".gif", ".bmp"]

/-- `_IMAGE_CELL_HEIGHT`: fixed height for images in table cells. -/
def IMAGE_CELL_HEIGHT : ℚ := 30

/-- `_get_image_path`: an `{"image": ...}` dict is an image; a string whose
lower-cased path suffix is a known image extension is an image; anything else
is not. -/
def getImagePath : PyCell → Option String
  | .imgDict p => some p
  | .str s => if IMAGE_EXTENSIONS.contains (pyLower (pathSuffix s)) then some s else none
  | .pyNone => none

/-- `"" if cell is None else str(cell)`.  The `.imgDict` case never reaches
this (its `_get_image_path` is always `some`), so its value is irrelevant. -/
def cellText : PyCell → String
  | .str s => s
  | _ => ""

/-! ## The backend interface (fpdf + PIL, consumed by the engine) -/

/-- Intrinsic pixel dimensions reported by `PIL.Image.open`; a decodable image
always has positive width and height. -/
structure ImgDims where
  width : ℚ
  height : ℚ
  width_pos : 0 < width
  height_pos : 0 < height

/-- The external collaborators of the layout engine:

* `strWidth style size s` models `pdf.get_string_width(s)` with the font set
  to the given style (`""` or `"B"`) and size;
* `split style size w s` models
  `pdf.multi_cell(w, h, s, split_only=True)`: the wrapped lines, or an
  `FPDFException` (`Except.error ()`);
* `fs path` models `PIL.Image.open(path)`: the image's intrinsic dimensions,
  or `none` when the file is missing or unreadable.

String widths reported by fpdf are sums of non-negative glyph widths. -/
structure Backend where
  strWidth : String → ℚ → String → ℚ
  split : String → ℚ → ℚ → String → Except Unit (List String)
  fs : String → Option ImgDims
  strWidth_nonneg : ∀ style size s, 0 ≤ strWidth style size s

/-- The wrap-with-fallback of `_split_row_cells`:
`try: lines = pdf.multi_cell(cw, line_height, text, split_only=True)`
`except FPDFException: lines = [text]`. -/
def wrapOrFallback (b : Backend) (style : String) (size cw : ℚ) (text : String) :
    List String :=
  match b.split style size cw text with
  | .ok ls => ls
  | .error _ => [text]

/-! ## `_split_row_cells` -/

/-- What `_split_row_cells` records per cell: a list of wrapped text lines, or
an image entry `{"image": path, "width": scaled, "height": 30}`. -/
inductive CellContent where
  | lines (ls : List String)
  | image (path : String) (width height : ℚ)
deriving DecidableEq, Repr

/-- One iteration of the `_split_row_cells` loop body for cell `cell` in a
column of width `cw`: the recorded content together with the line count the
cell contributes to `max_lines` (`len(lines)` for text,
`math.ceil(_IMAGE_CELL_HEIGHT / line_height)` for an image).  A missing image
file raises out of `Image.open`, modelled as `Except.error path`. -/
def splitCell (b : Backend) (style : String) (size cw lh : ℚ) (cell : PyCell) :
    Except String (CellContent × ℕ) :=
  match getImagePath cell with
  | some p =>
    match b.fs p with
    | some im =>
      .ok (.image p (IMAGE_CELL_HEIGHT * im.width / im.height) IMAGE_CELL_HEIGHT,
           Int.toNat ⌈IMAGE_CELL_HEIGHT / lh⌉)
    | none => .error p
  | none =>
    let text := cellText cell
    .ok (.lines (wrapOrFallback b style size cw text),
         (wrapOrFallback b style size cw text).length)

/-- The `_split_row_cells` loop over `zip(cells, col_widths)`, accumulating
`max_lines` left-to-right from the initial value 1. -/
def splitCellsAux (b : Backend) (style : String) (size lh : ℚ) :
    List (PyCell × ℚ) → ℕ → Except String (List CellContent × ℕ)
  | [], m => .ok ([], m)
  | (cell, cw) :: rest, m => do
    let (content, mc) ← splitCell b style size cw lh cell
    let (tl, m') ← splitCellsAux b style size lh rest (max m mc)
    .ok (content :: tl, m')

/-- `_split_row_cells`: split text cells into wrapped lines, capture image cell
metadata, and return the row height `line_height * max_lines`. -/
def splitRowCells (b : Backend) (style : String) (size : ℚ)
    (cells : List PyCell) (colWidths : List ℚ) (lh : ℚ) :
    Except String (List CellContent × ℚ) := do
  let (cl, m) ← splitCellsAux b style size lh (cells.zip colWidths) 1
  .ok (cl, lh * (m : ℚ))

/-! ## Page geometry and cursor state -/

/-- Page geometry fixed at construction: effective page width, left and top
margins, and `page_break_trigger` (page height minus the bottom margin set by
`set_auto_page_break`). -/
structure Geom where
  epw : ℚ
  lMargin : ℚ
  tMargin : ℚ
  trigger : ℚ
deriving DecidableEq, Repr

/-- The layout cursor: current page index and y offset. -/
structure PdfState where
  page : ℕ
  y : ℚ
deriving DecidableEq, Repr

/-- `pdf.add_page()`: next page, cursor reset to the top margin. -/
def addPage (g : Geom) (st : PdfState) : PdfState :=
  { page := st.page + 1, y := g.tMargin }

/-! ## `_render_table_row` -/

/-- A draw instruction crossing into the backend.  `image` records the call
`pdf.image(path, x=…, y=…, h=…)` (fpdf derives the drawn width from the
image's aspect ratio when only `h` is given).  `pageBreak` records fpdf's
automatic page break (`set_auto_page_break(auto=True, margin=15)` at line
186): fired by a `cell` / `multi_cell` whose requested bottom edge crosses
`page_break_trigger`, it starts a new page and the cell that triggered it —
the draw instruction following the marker — lands at the top margin of that
new page (fpdf preserves the x position across the break).  `rect` and
`image` calls with explicit coordinates never fire it.  `warn` is the warning
channel the spec's failure semantics talk about; `document_generator.py`
contains no logging call, so no operation of the embedding ever emits it. -/
inductive Draw where
  | rect (x y w h : ℚ)
  | image (path : String) (x y h : ℚ)
  | textCell (x y w h : ℚ) (txt : String) (border : String)
  | pageBreak
  | warn (msg : String)
deriving DecidableEq, Repr

/-- Whether a draw instruction is a warning. -/
def Draw.isWarn : Draw → Bool
  | .warn _ => true
  | _ => false

/-- Whether a draw instruction is an automatic page break. -/
def Draw.isBreak : Draw → Bool
  | .pageBreak => true
  | _ => false

/-- How many automatic page breaks fired while emitting `ops` — each one
advanced `pdf.page` by one. -/
def breakCount (ops : List Draw) : ℕ :=
  ops.countP (fun d => d.isBreak)

/-- Top edge of a draw instruction. -/
def drawY : Draw → ℚ
  | .rect _ y _ _ => y
  | .image _ _ y _ => y
  | .textCell _ y _ _ _ _ => y
  | .pageBreak => 0
  | .warn _ => 0

/-- Vertical extent of a draw instruction. -/
def drawH : Draw → ℚ
  | .rect _ _ _ h => h
  | .image _ _ _ h => h
  | .textCell _ _ _ h _ _ => h
  | .pageBreak => 0
  | .warn _ => 0

/-- fpdf draw width of `pdf.image(path, …, h=h)`: only the height is passed,
so the width is `h` times the image's intrinsic aspect ratio.  Modelled from
the fpdf2 backend's documented behaviour. -/
def drawnImageWidth (b : Backend) (path : String) (h : ℚ) : ℚ :=
  match b.fs path with
  | some im => h * im.width / im.height
  | none => 0

/-- The image-cell branch of the `_render_table_row` loop body: on the first
line index only, draw the cell border rectangle and the image
(`img_w = min(lines["width"], cw - 2)`, horizontally centred using `img_w`,
vertically centred using the stored image height). -/
def imageCellOps (lineIdx : ℕ) (x yStart cw rowHeight : ℚ)
    (path : String) (imgW imgH : ℚ) : List Draw :=
  if lineIdx = 0 then
    [.rect x yStart cw rowHeight,
     .image path (x + (cw - min imgW (cw - 2)) / 2)
       (yStart + (rowHeight - imgH) / 2) imgH]
  else []

/-- The border string chosen for a text cell at line `lineIdx` of
`maxLines`. -/
def cellBorder (lineIdx maxLines : ℕ) : String :=
  if lineIdx = 0 ∧ maxLines = 1 then "LTRB"
  else if lineIdx = 0 then "LTR"
  else if lineIdx = maxLines - 1 then "LBR"
  else "LR"

/-- One per-line `pdf.multi_cell(cw, lh, txt, border=…)` preceded by
`pdf.set_xy(x, yReq)` under `set_auto_page_break(auto=True)`: when the
requested bottom edge `yReq + lh` crosses `page_break_trigger` fpdf starts a
new page and draws the cell at the top margin (keeping `x`); otherwise the
cell is drawn at the requested position. -/
def textLineOps (g : Geom) (x yReq cw lh : ℚ) (txt border : String) : List Draw :=
  if yReq + lh > g.trigger then
    [.pageBreak, .textCell x g.tMargin cw lh txt border]
  else
    [.textCell x yReq cw lh txt border]

/-- The inner loop of `_render_table_row` for one line index: walk the cells
left to right, advancing `x` by each column width.  Each text cell is placed
by `set_xy(x, y_start + line_idx*line_height)` followed by `multi_cell`,
which auto-breaks when its bottom edge crosses the trigger; the image-branch
`rect` / `image` calls use explicit coordinates and never break. -/
def rowLineOps (g : Geom) (lh yStart rowHeight : ℚ) (lineIdx maxLines : ℕ) :
    ℚ → List (CellContent × ℚ) → List Draw
  | _, [] => []
  | x, (content, cw) :: rest =>
    (match content with
     | .image p w h => imageCellOps lineIdx x yStart cw rowHeight p w h
     | .lines ls =>
       textLineOps g x (yStart + (lineIdx : ℚ) * lh) cw lh (ls.getD lineIdx "")
         (cellBorder lineIdx maxLines))
    ++ rowLineOps g lh yStart rowHeight lineIdx maxLines (x + cw) rest

/-- The draw instructions of `_render_table_row`, looping
`for line_idx in range(max_lines)` with `max_lines = int(row_height /
line_height)`.  Because the loop re-sets the cursor with absolute
`set_xy(x, y_start + line_idx*line_height)` before every cell, whether a cell
auto-breaks depends only on its requested y, not on earlier breaks: every
line whose bottom edge crosses the trigger spills each of its text cells onto
its own fresh page. -/
def renderTableRowOps (g : Geom) (cl : List CellContent) (colWidths : List ℚ)
    (lh rowHeight xStart yStart : ℚ) : List Draw :=
  let maxLines := Int.toNat ⌊rowHeight / lh⌋
  (List.range maxLines).flatMap
    (fun k => rowLineOps g lh yStart rowHeight k maxLines xStart (cl.zip colWidths))

/-- `_render_table_row`: split the cells, draw them (each text cell subject to
fpdf's automatic page break), and set the cursor with the absolute
`pdf.set_xy(x_start, y_start + row_height)` on the then-current page — the
page advanced by one per automatic break fired.  Returns the emitted
instructions, the row height, and the new cursor. -/
def renderTableRow (b : Backend) (style : String) (size : ℚ) (g : Geom)
    (st : PdfState) (cells : List PyCell) (colWidths : List ℚ) (lh : ℚ) :
    Except String (List Draw × ℚ × PdfState) := do
  let (cl, rowHeight) ← splitRowCells b style size cells colWidths lh
  let ops := renderTableRowOps g cl colWidths lh rowHeight g.lMargin st.y
  .ok (ops, rowHeight, ⟨st.page + breakCount ops, st.y + rowHeight⟩)

/-! ## `_render_table`: column widths -/

/-- `col_count = max(len(headers), max((len(r) for r in rows), default=0))`. -/
def colCount (headers : List String) (rows : List (List PyCell)) : ℕ :=
  max headers.length ((rows.map List.length).foldr max 0)

/-- The row-length normalisation at the top of `_render_table`: pad the header
list and every row with empty cells up to `col_count`. -/
def normalizeTable (headers : List String) (rows : List (List PyCell)) :
    List String × List (List PyCell) :=
  let n := colCount headers rows
  (headers ++ List.replicate (n - headers.length) "",
   rows.map (fun r => r ++ List.replicate (n - r.length) (PyCell.str "")))

/-- The cells of column `idx`: the header cell followed by each row's cell.
Applied to the normalised table, the indexing defaults are unreachable. -/
def columnCells (headers : List String) (rows : List (List PyCell)) (idx : ℕ) :
    List PyCell :=
  PyCell.str (headers.getD idx "") :: rows.map (fun r => r.getD idx (PyCell.str ""))

/-- The content width of one cell in the width pass of `_render_table`
(executed with the font at size 12, regular style): the aspect-scaled image
width for an image cell, `get_string_width(str(cell)) + 4` otherwise. -/
def cellRawWidth (b : Backend) (cell : PyCell) : Except String ℚ :=
  match getImagePath cell with
  | some p =>
    match b.fs p with
    | some im => .ok (IMAGE_CELL_HEIGHT * im.width / im.height)
    | none => .error p
  | none => .ok (b.strWidth "" 12 (cellText cell) + 4)

/-- `max_w`: fold of `max` over a column's cell widths starting from `0.0`. -/
def rawColWidth (b : Backend) (cells : List PyCell) : Except String ℚ :=
  cells.foldlM (fun acc c => do
    let w ← cellRawWidth b c
    pure (max acc w)) 0

/-- Effectful map over `Except` (the list comprehension with a possible
`Image.open` exception inside). -/
def exceptMap (f : ℕ → Except String ℚ) : List ℕ → Except String (List ℚ)
  | [] => .ok []
  | i :: is => do
    let w ← f i
    let ws ← exceptMap f is
    .ok (w :: ws)

/-- The raw per-column widths of the normalised table. -/
def computeRawWidths (b : Backend) (n : ℕ) (headers : List String)
    (rows : List (List PyCell)) : Except String (List ℚ) :=
  exceptMap (fun idx => rawColWidth b (columnCells headers rows idx)) (List.range n)

/-- Lines 384–400 of `_render_table`: normalise, compute content-based raw
widths, and scale them by `epw / (sum(col_widths) or epw)` so they fill the
effective page width. -/
def computeColWidths (b : Backend) (epw : ℚ) (headers : List String)
    (rows : List (List PyCell)) : Except String (List ℚ) := do
  let raw ← computeRawWidths b (colCount headers rows)
    (normalizeTable headers rows).1 (normalizeTable headers rows).2
  .ok (raw.map (fun w => w * (epw / pyOrQ raw.sum epw)))

/-- `min(col_widths) if col_widths else epw`. -/
def listMinD (l : List ℚ) (d : ℚ) : ℚ :=
  match l with
  | [] => d
  | x :: xs => xs.foldl min x

/-- The sequential font-size reduction of `_render_table` driven by the
narrowest column. -/
def tableFontSize (minColWidth : ℚ) : ℚ :=
  let fs0 : ℚ := 12
  let fs1 := if minColWidth < 25 then (10 : ℚ) else fs0
  let fs2 := if minColWidth < 20 then (8 : ℚ) else fs1
  if minColWidth < 15 then (6 : ℚ) else fs2

/-! ## `_render_table`: page flow -/

/-- One `_render_table_row` call of `_render_table`, as placed on the page:
whether it drew the header row, the data row index, the page and y extent it
occupies, the font style it was drawn with, and its draw instructions. -/
structure Placement where
  isHeader : Bool
  rowIdx : ℕ
  page : ℕ
  yStart : ℚ
  height : ℚ
  style : String
  ops : List Draw
deriving DecidableEq, Repr

/-- The data-row loop of `_render_table`: for each row, compute its height,
start a new page and re-draw the header row in bold when the row would cross
`page_break_trigger`, then draw the row.  A row that still does not fit the
fresh page spills onto further pages through the backend's automatic page
break inside `_render_table_row`, with no header re-draw on those pages. -/
def renderRows (b : Backend) (g : Geom) (fontSize : ℚ) (headers : List String)
    (colWidths : List ℚ) (lh : ℚ) :
    List (List PyCell) → ℕ → PdfState → Except String (List Placement × PdfState)
  | [], _, st => .ok ([], st)
  | r :: rest, idx, st => do
    let (_, rowHeight) ← splitRowCells b "" fontSize r colWidths lh
    if st.y + rowHeight > g.trigger then
      let stA := addPage g st
      let (hOps, hH, stB) ←
        renderTableRow b "B" fontSize g stA (headers.map PyCell.str) colWidths lh
      let (rOps, rH, stC) ← renderTableRow b "" fontSize g stB r colWidths lh
      let (ps, stF) ← renderRows b g fontSize headers colWidths lh rest (idx + 1) stC
      .ok (⟨true, idx, stA.page, stA.y, hH, "B", hOps⟩ ::
           ⟨false, idx, stB.page, stB.y, rH, "", rOps⟩ :: ps, stF)
    else
      let (rOps, rH, stC) ← renderTableRow b "" fontSize g st r colWidths lh
      let (ps, stF) ← renderRows b g fontSize headers colWidths lh rest (idx + 1) stC
      .ok (⟨false, idx, st.page, st.y, rH, "", rOps⟩ :: ps, stF)

/-- `_render_table`: normalise the table, allocate column widths, pick the
font size and line height, draw the (bold) header row — taking a page break
first if the header itself would cross the trigger — then run the data-row
loop. -/
def renderTable (b : Backend) (g : Geom) (st0 : PdfState)
    (headers : List String) (rows : List (List PyCell)) :
    Except String (List Placement × PdfState) := do
  let hs := (normalizeTable headers rows).1
  let colWidths ← computeColWidths b g.epw headers rows
  let fontSize := tableFontSize (listMinD colWidths g.epw)
  let lh := fontSize * (1 / 2)
  let (_, headerHeight) ← splitRowCells b "B" fontSize (hs.map PyCell.str) colWidths lh
  let st1 := if st0.y + headerHeight > g.trigger then addPage g st0 else st0
  let (hOps, hH, st2) ←
    renderTableRow b "B" fontSize g st1 (hs.map PyCell.str) colWidths lh
  let (ps, stF) ←
    renderRows b g fontSize hs colWidths lh (normalizeTable headers rows).2 0 st2
  .ok (⟨true, 0, st1.page, st1.y, hH, "B", hOps⟩ :: ps, stF)

/-- The placements of a table render, or `[]` when rendering raised. -/
def tablePlacements (b : Backend) (g : Geom) (st0 : PdfState)
    (headers : List String) (rows : List (List PyCell)) : List Placement :=
  match renderTable b g st0 headers rows with
  | .ok (ps, _) => ps
  | .error _ => []

/-! ## `_parse_table_block` -/

/-- `[c.strip() for c in line.strip().strip("|").split("|")]`. -/
def parseCells (line : String) : List String :=
  (pySplitChar '|' (stripBars (pyStrip line))).map pyStrip

/-- The row-consuming loop of `_parse_table_block`: take lines while they
start with `"|"`. -/
def takeTableRows : List String → List (List String)
  | [] => []
  | l :: rest =>
    if pyStartsWith l "|" then parseCells l :: takeTableRows rest else []

/-- `_parse_table_block`: headers from `lines[start]`, rows from
`lines[start+2:]` while they start with `"|"`, and the index of the next line
after the table. -/
def parseTableBlock (lines : List String) (start : ℕ) :
    List String × List (List String) × ℕ :=
  let header := parseCells (lines.getD start "")
  let rows := takeTableRows (lines.drop (start + 2))
  (header, rows, start + 2 + rows.length)

/-! ## `_TABLE_SEPARATOR_RE` -/

/-- One group `\s*:?-+:?\s*\|` of the separator regex, returning the rest of
the input on success.  The character classes of consecutive regex pieces are
disjoint, so this greedy parse is equivalent to the regex. -/
def sepGroup (cs : List Char) : Option (List Char) :=
  let c1 := cs.dropWhile Char.isWhitespace
  let c2 := match c1 with
    | ':' :: t => t
    | _ => c1
  match c2 with
  | '-' :: _ =>
    let c3 := c2.dropWhile (fun c => c = '-')
    let c4 := match c3 with
      | ':' :: t => t
      | _ => c3
    let c5 := c4.dropWhile Char.isWhitespace
    match c5 with
    | '|' :: t => some t
    | _ => none
  | _ => none

/-- `(group)* \s* $`, with fuel (each group consumes at least one character,
so `cs.length` fuel is always enough). -/
def sepStar : ℕ → List Char → Bool
  | 0, cs => (cs.dropWhile Char.isWhitespace).isEmpty
  | fuel + 1, cs =>
    match sepGroup cs with
    | some rest => sepStar fuel rest
    | none => (cs.dropWhile Char.isWhitespace).isEmpty

/-- `_TABLE_SEPARATOR_RE.match(s)`: `^\|(?:\s*:?-+:?\s*\|)+\s*$`. -/
def sepLineMatch (s : String) : Bool :=
  match s.data with
  | '|' :: rest =>
    match sepGroup rest with
    | some r => sepStar r.length r
    | none => false
  | _ => false

/-- `len(line.strip().strip("|").split("|"))`. -/
def countCols (line : String) : ℕ :=
  (pySplitChar '|' (stripBars (pyStrip line))).length

/-- Dropping a prefix never lengthens a list. -/
theorem dropWhile_length_le (p : α → Bool) (l : List α) :
    (l.dropWhile p).length ≤ l.length := by
  induction l with
  | nil => simp [List.dropWhile]
  | cons a l ih =>
    simp only [List.dropWhile]
    split
    · exact Nat.le_succ_of_le ih
    · simp

/-- The scanning loop of `_max_table_columns`: when a `"|"` line is followed
by a separator line, count the header line and every following `"|"` line and
resume after them; otherwise move to the next line. -/
def maxTableColumnsCore : List String → ℕ → ℕ
  | [], acc => acc
  | [_], acc => acc
  | l :: l2 :: rest2, acc =>
    if pyStartsWith l "|" ∧ sepLineMatch l2 then
      let acc1 := max acc (countCols l)
      let acc2 := (rest2.takeWhile (fun x => pyStartsWith x "|")).foldl
        (fun a x => max a (countCols x)) acc1
      maxTableColumnsCore (rest2.dropWhile (fun x => pyStartsWith x "|")) acc2
    else
      maxTableColumnsCore (l2 :: rest2) acc
termination_by l => l.length
decreasing_by
  · simp only [List.length_cons]
    have := dropWhile_length_le (fun x => pyStartsWith x "|") rest2
    omega
  · simp

/-- `_max_table_columns`: maximum column count over the markdown tables of
`md` (split into lines at `"\n"`). -/
def maxTableColumns (md : String) : ℕ :=
  maxTableColumnsCore (pySplitChar '\n' md) 0

/-! ## `_scenes_table` and its data model -/

/-- Python `f"{x:.2f}"` on a numeric value modelled as `ℚ`: two decimal
places.  Machine-float tie behaviour is immaterial to every property proved
here; rounding is `round` on the scaled value. -/
def fmt2 (q : ℚ) : String :=
  let n : ℤ := round (q * 100)
  let a := n.natAbs
  let frac := a % 100
  (if n < 0 then "-" else "") ++ toString (a / 100) ++ "." ++
    (if frac < 10 then "0" else "") ++ toString frac

/-- An on-screen-text object `{text, t_in, t_out, position, style}` as
consumed by `_osd_str`; absent numeric fields (or values `float` rejects) are
`none`. -/
structure Osd where
  text : String
  tIn : Option ℚ
  tOut : Option ℚ
  position : String
  osdStyle : String
deriving DecidableEq, Repr

/-- `_osd_str`: `"[t_in–t_out s] text (position, style)"`, with each part
omitted when absent, then stripped. -/
def osdStr (o : Osd) : String :=
  let tspan := match o.tIn, o.tOut with
    | some a, some c => "[" ++ fmt2 a ++ "–" ++ fmt2 c ++ "s] "
    | _, _ => ""
  let meta := if o.position ≠ "" ∨ o.osdStyle ≠ "" then
      " (" ++ String.intercalate ", "
        (([o.position, o.osdStyle]).filter (fun p => p ≠ "")) ++ ")"
    else ""
  pyStrip (tspan ++ o.text ++ meta)

/-- One element of the analyzer's `scenes` list, holding the values
`_scenes_table` extracts: `_num` of `start_s` / `end_s`, the text fields it
formats (as strings), the on-screen-text list, and the five optional
thumbnail fields tried in order. -/
structure Scene where
  startS : Option ℚ
  endS : Option ℚ
  shot : String
  framing : String
  action : String
  dialogueVo : String
  onScreenText : List Osd
  referenceThumbnail : Option String
  thumbnailUrl : Option String
  thumbnail : Option String
  imageUrl : Option String
  imgUrl : Option String
deriving DecidableEq, Repr

/-- The header line of the scene table. -/
def sceneHeaderLine : String :=
  "| Timestamp | Shot Type | Framing | Action | Dialogue | On-Screen Text | Reference Thumbnail Screenshot |"

/-- The separator line of the scene table. -/
def sceneSepLine : String := "|---|---|---|---|---|---|---|"

/-- The seven column titles of the scene table. -/
def sevenHeaders : List String :=
  ["Timestamp", "Shot Type", "Framing", "Action", "Dialogue", "On-Screen Text",
   "Reference Thumbnail Screenshot"]

/-- One data line of `_scenes_table`:
`"| {ts} | {shot} | {frame} | {act} | {dlg} | {txt} | {thumb} |"` with every
field passed through `_safe`. -/
def sceneRow (s : Scene) : String :=
  let timestamp := match s.startS, s.endS with
    | some a, some c => fmt2 a ++ "–" ++ fmt2 c
    | _, _ => ""
  let ontext := if s.onScreenText.isEmpty then ""
    else String.intercalate "; " (s.onScreenText.map osdStr)
  let thumb := pyOrS s.referenceThumbnail (pyOrS s.thumbnailUrl
    (pyOrS s.thumbnail (pyOrS s.imageUrl (pyOrS s.imgUrl ""))))
  "| " ++ safeStr timestamp ++ " | " ++ safeStr s.shot ++ " | " ++
    safeStr s.framing ++ " | " ++ safeStr s.action ++ " | " ++
    safeStr s.dialogueVo ++ " | " ++ safeStr ontext ++ " | " ++
    safeStr thumb ++ " |"

/-- `_scenes_table`: the section heading, then — when any scenes exist — a
blank line, the table header and separator, and one row per scene. -/
def scenesTable (scenes : List Scene) : List String :=
  if scenes.isEmpty then
    ["### Scene-by-Scene (Reference Video)", "", "> No scenes provided."]
  else
    ["### Scene-by-Scene (Reference Video)", "", sceneHeaderLine, sceneSepLine]
      ++ scenes.map sceneRow

/-! ## `make_brief_pdf`: inputs -/

/-- The `script` argument of `make_brief_pdf`.  The function accepts it but
never reads it, so it carries no fields. -/
structure ScriptDoc where
deriving DecidableEq, Repr

/-- The `product_facts` dictionary as read by `make_brief_pdf`: possibly
absent brand and product name, and the three claim lists (each item already
rendered to a string; `None` items are skipped by `_append_list` before this
model sees them). -/
structure ProductFacts where
  brand : Option String
  productName : Option String
  approvedClaims : List String
  requiredDisclaimers : List String
  forbidden : List String
deriving DecidableEq, Repr

/-- The analyzer dictionary as read by `make_brief_pdf`: the
`video_metadata` / `global_style` values `_analyzer_global_summary` extracts
(strings already `str(...)`-rendered, numbers through `_num`), and the
`scenes` list. -/
structure AnalyzerDoc where
  platform : String
  aspectRatio : String
  durationS : Option ℚ
  hookType : List String
  promise : String
  payoff : String
  ctaCore : String
  riskFlags : List String
  musicGenre : Option String
  musicBpm : String
  scenes : List Scene
deriving DecidableEq, Repr

/-- `_append_list`: append `bullet + str(it).strip()` for every item whose
stripped form is non-empty. -/
def appendList (items : List String) (bullet : String) : List String :=
  ((items.map pyStrip).filter (fun s => s ≠ "")).map (fun s => bullet ++ s)

/-- The music entries: `[genre, f"{bpm} BPM"]` filtered by
`x and str(x).strip()` (a `None` genre and the empty string are falsy). -/
def musicItems (a : AnalyzerDoc) : List String :=
  (([a.musicGenre, some (a.musicBpm ++ " BPM")]).filterMap id).filter
    (fun x => !(x == "") && !(pyStrip x == ""))

/-- `_analyzer_global_summary`. -/
def analyzerGlobalSummary (a : AnalyzerDoc) : List String :=
  ["**Platform**: " ++ a.platform,
   (match a.durationS with
    | some d => "**Duration**: " ++ fmt2 d ++ "s"
    | none => "**Duration**: (unknown)"),
   "**Aspect Ratio**: " ++ a.aspectRatio,
   "",
   (if a.hookType.isEmpty then "**Hook Type(s)**: (none)"
    else "**Hook Type(s)**: " ++ String.intercalate ", " a.hookType),
   "**Promise**: " ++ pyOrS (some a.promise) "(none)",
   "**Payoff**: " ++ pyOrS (some a.payoff) "(none)",
   "**Core CTA**: " ++ pyOrS (some a.ctaCore) "(none)",
   "",
   "**Music**: " ++ String.intercalate ", " (musicItems a)]
  ++ (if a.riskFlags.isEmpty then []
      else ["**Risk Flags**: " ++ String.intercalate ", " a.riskFlags])

/-- The summary-page lines built at the top of `make_brief_pdf` (header,
product facts, reference-video summary). -/
def summaryLines (pf : ProductFacts) (a : AnalyzerDoc) (title : String) :
    List String :=
  let brand := pyOrS pf.brand ""
  let product := pyOrS pf.productName ""
  ["# " ++ title]
  ++ (if brand ≠ "" ∨ product ≠ "" then
        [pyStrip ("**Product**: " ++ brand ++ " " ++ product)]
      else [])
  ++ [""]
  ++ ["## Product Facts (Claims Whitelist)"]
  ++ appendList pf.approvedClaims "- "
  ++ (if pf.requiredDisclaimers.isEmpty then []
      else ["", "**Required Disclaimers**"]
        ++ appendList pf.requiredDisclaimers "- ")
  ++ (if pf.forbidden.isEmpty then []
      else ["", "**Forbidden / Restricted Claims**"]
        ++ appendList pf.forbidden "- ")
  ++ [""]
  ++ ["## Reference Video — Director Breakdown"]
  ++ analyzerGlobalSummary a
  ++ [""]

/-! ## `make_brief_pdf`: page rendering -/

/-- A backend call emitted while rendering a page.  `tableEv` wraps the
placements of one `_render_table` call. -/
inductive PEv where
  | newPage
  | setFont (style : String) (size : ℚ)
  | lnBreak (h : ℚ)
  | multiCell (w h : ℚ) (txt : String)
  | cellItem (w h : ℚ) (txt : String)
  | tableEv (placements : List Placement)
deriving DecidableEq, Repr

/-- Python `line[n:]`. -/
def strSlice (s : String) (n : ℕ) : String :=
  String.mk (s.data.drop n)

/-- `pdf.multi_cell(w, h, txt)` at the current font: wraps `txt` at width `w`
(an uncaught `FPDFException` aborts the render) and advances the cursor by
one line height per wrapped line. -/
def doMultiCell (b : Backend) (style : String) (size w h : ℚ) (txt : String)
    (st : PdfState) : Except String (PEv × PdfState) := do
  let ls ← (b.split style size w txt).mapError (fun _ => "FPDFException")
  .ok (.multiCell w h txt, { st with y := st.y + h * ((max 1 ls.length : ℕ) : ℚ) })

/-- `_render_list_item`: a bullet cell of width `get_string_width("- ")`
followed by a `multi_cell` over the remaining width. -/
def renderListItem (b : Backend) (g : Geom) (text : String) (st : PdfState) :
    Except String (List PEv × PdfState) := do
  let indent := b.strWidth "" 12 "- "
  let (ev, st') ← doMultiCell b "" 12 (g.epw - indent) 6 text st
  .ok ([.cellItem indent 6 "- ", ev], st')

/-- The shared per-line dispatch of the two rendering loops of
`make_brief_pdf` (the source repeats this block verbatim in both loops):
blank line, `# ` / `## ` / `### ` headings with their font sizes, `- ` list
items, else a plain paragraph. -/
def renderPlainLine (b : Backend) (g : Geom) (line : String) (st : PdfState) :
    Except String (List PEv × PdfState) :=
  if pyStrip line = "" then
    .ok ([.lnBreak 5], { st with y := st.y + 5 })
  else if pyStartsWith line "# " then do
    let (ev, st') ← doMultiCell b "" 16 g.epw 8 (pyStrip (strSlice line 2)) st
    .ok ([.setFont "" 16, ev, .setFont "" 12], st')
  else if pyStartsWith line "## " then do
    let (ev, st') ← doMultiCell b "" 14 g.epw 7 (pyStrip (strSlice line 3)) st
    .ok ([.setFont "" 14, ev, .setFont "" 12], st')
  else if pyStartsWith line "### " then do
    let (ev, st') ← doMultiCell b "" 12 g.epw 6 (pyStrip (strSlice line 4)) st
    .ok ([.setFont "" 12, ev], st')
  else if pyStartsWith line "- " then
    renderListItem b g (pyStrip (strSlice line 2)) st
  else do
    let (ev, st') ← doMultiCell b "" 12 g.epw 6 line st
    .ok ([ev], st')

/-- The summary-page loop (lines 195–217 of the source): no table branch. -/
def renderSummaryLines (b : Backend) (g : Geom) :
    List String → PdfState → Except String (List PEv × PdfState)
  | [], st => .ok ([], st)
  | line :: rest, st => do
    let (evs1, st1) ← renderPlainLine b g line st
    let (evs, stF) ← renderSummaryLines b g rest st1
    .ok (evs1 ++ evs, stF)

/-- The storyboard-page loop (lines 222–256): a `"|"` line followed by a
separator line starts a table, parsed by `_parse_table_block`, rendered by
`_render_table` and followed by `pdf.ln(SECTION_SPACING)`; every other line
goes through the shared dispatch. -/
def renderBodyLines (b : Backend) (g : Geom) :
    List String → PdfState → Except String (List PEv × PdfState)
  | [], st => .ok ([], st)
  | l :: rest, st =>
    if pyStartsWith l "|" && (match rest with
        | l2 :: _ => sepLineMatch l2
        | [] => false) then do
      let pr := parseTableBlock (l :: rest) 0
      let (ps, st') ← renderTable b g st pr.1 (pr.2.1.map (fun r => r.map PyCell.str))
      let (evs, stF) ← renderBodyLines b g ((l :: rest).drop pr.2.2)
        { st' with y := st'.y + 4 }
      .ok (.tableEv ps :: .lnBreak 4 :: evs, stF)
    else do
      let (evs1, st1) ← renderPlainLine b g l st
      let (evs, stF) ← renderBodyLines b g rest st1
      .ok (evs1 ++ evs, stF)
termination_by lines => lines.length
decreasing_by
  · simp only [parseTableBlock, List.length_drop, List.length_cons]
    omega
  · simp

/-- The A4 page geometry for an orientation letter, with the margins set by
`make_brief_pdf` (`set_margins(15, 15, 15)`, auto-page-break margin 15):
portrait 210×297, landscape 297×210. -/
def geomFor (o : String) : Geom :=
  if o = "L" then ⟨267, 15, 15, 195⟩ else ⟨180, 15, 15, 282⟩

/-- `make_brief_pdf`: build the summary lines and the storyboard lines, pick
the orientation (from `_max_table_columns` of the joined storyboard unless
given; an explicit empty orientation string raises `IndexError`, and fpdf
rejects orientation letters other than `P`/`L`), then render the summary page
and the storyboard page.  The result is the orientation letter and the full
ordered trace of backend calls; the byte stream the program returns is
produced from this trace by `pdf.output(dest="S")`, which additionally stamps
wall-clock metadata (see `pdfOutputBytes`). -/
def makeBriefPdf (b : Backend) (analyzer : AnalyzerDoc) (_script : ScriptDoc)
    (pf : ProductFacts) (title : String) (orientation : Option String)
    (columnThreshold : ℕ) : Except String (String × List PEv) := do
  let summary := summaryLines pf analyzer title
  let storyboard := scenesTable analyzer.scenes
  let orient ← (match orientation with
    | none =>
      Except.ok (if columnThreshold <
          maxTableColumns (String.intercalate "\n" storyboard) then "L" else "P")
    | some o =>
      match o.data with
      | c :: _ => Except.ok (String.mk [c.toUpper])
      | [] => Except.error "IndexError")
  if orient ≠ "L" ∧ orient ≠ "P" then
    Except.error "fpdf: invalid orientation"
  else do
    let g := geomFor orient
    let st0 : PdfState := { page := 1, y := g.tMargin }
    let (evs1, st1) ← renderSummaryLines b g summary st0
    let st2 := addPage g st1
    let (evs2, _) ← renderBodyLines b g storyboard st2
    .ok (orient, (PEv.newPage :: PEv.setFont "" 12 :: evs1)
      ++ (PEv.newPage :: PEv.setFont "" 12 :: evs2))

/-- `pdf.output(dest="S")`, abstracted to exactly the information the
determinism question needs.  Modelled from the fpdf2 backend's documented
behaviour: the serialised page content is a function of the emitted
instruction trace (kept verbatim as the first component), and the document
information dictionary carries a `/CreationDate` entry stamped from the wall
clock at output time (the second component).  Two byte streams are equal iff
both components agree. -/
def pdfOutputBytes (trace : List PEv) (creationDate : String) :
    List PEv × String :=
  (trace, "/CreationDate (D:" ++ creationDate ++ ")")

/-- A full run of the program: `make_brief_pdf` followed by
`pdf.output(dest="S")` at wall-clock time `creationDate`.  Returns the
orientation letter, the instruction trace, and the output byte stream. -/
def makeBriefPdfOutput (b : Backend) (analyzer : AnalyzerDoc) (script : ScriptDoc)
    (pf : ProductFacts) (title : String) (orientation : Option String)
    (columnThreshold : ℕ) (creationDate : String) :
    Except String (String × List PEv × (List PEv × String)) := do
  let (orient, trace) ← makeBriefPdf b analyzer script pf title orientation
    columnThreshold
  .ok (orient, trace, pdfOutputBytes trace creationDate)

/-! ## Concrete backends for witnesses and counterexamples -/

/-- A backend in which every character is one unit wide, wrapping keeps the
text on a single line, and no image file exists. -/
def bkLen : Backend where
  strWidth := fun _ _ s => (s.length : ℚ)
  split := fun _ _ _ t => .ok [t]
  fs := fun _ => none
  strWidth_nonneg := fun _ _ s => by positivity

/-- A backend whose wrapper puts every character on its own line (an extreme
but legitimate string-width oracle: very narrow columns). -/
def bkChars : Backend where
  strWidth := fun _ _ s => (s.length : ℚ)
  split := fun _ _ _ t => .ok (t.data.map (fun c => String.mk [c]))
  fs := fun _ => none
  strWidth_nonneg := fun _ _ s => by positivity

/-- A backend whose wrapping call always raises `FPDFException`. -/
def bkErr : Backend where
  strWidth := fun _ _ s => (s.length : ℚ)
  split := fun _ _ _ _ => .error ()
  fs := fun _ => none
  strWidth_nonneg := fun _ _ s => by positivity

/-- A backend carrying one wide image file: `a.png` is 300×30. -/
def bkImg : Backend where
  strWidth := fun _ _ s => (s.length : ℚ)
  split := fun _ _ _ t => .ok [t]
  fs := fun p => if p = "a.png" then some ⟨300, 30, by norm_num, by norm_num⟩ else none
  strWidth_nonneg := fun _ _ s => by positivity

/-! ## C7: row padding -/

/-- Any member of a list is at most the running maximum of the lengths. -/
theorem length_le_foldr_max (rows : List (List PyCell)) (r : List PyCell)
    (h : r ∈ rows) : r.length ≤ (rows.map List.length).foldr max 0 := by
  induction rows with
  | nil => cases h
  | cons a l ih =>
    rcases List.mem_cons.mp h with rfl | h'
    · exact le_max_left _ _
    · exact le_trans (ih h') (le_max_right _ _)

/-- C7 counterexample: `_parse_table_block` — table construction — does *not*
pad short rows: parsing a ragged markdown table yields a row whose cell count
differs from the header count, so the padding cannot have happened at
construction time. -/
theorem parseTableBlock_ragged_row_cex :
    parseTableBlock ["| a | b |", "|---|---|", "| c |"] 0 =
      (["a", "b"], [["c"]], 3) ∧
    ((parseTableBlock ["| a | b |", "|---|---|", "| c |"] 0).2.1.getD 0 []).length ≠
      (parseTableBlock ["| a | b |", "|---|---|", "| c |"] 0).1.length := by
  constructor
  · rfl
  · decide

/-- C7 (amended): the padding happens at the start of `_render_table`, during
layout: `normalizeTable` extends the header list and every row to
`col_count` cells, so the width allocation and the row loop — which only ever
see the normalised lists — never see a row whose length differs from the
(padded) header count. -/
theorem normalizeTable_uniform_lengths (headers : List String)
    (rows : List (List PyCell)) :
    (normalizeTable headers rows).1.length = colCount headers rows ∧
    ∀ r ∈ (normalizeTable headers rows).2, r.length = colCount headers rows := by
  constructor
  · simp only [normalizeTable, List.length_append, List.length_replicate]
    have : headers.length ≤ colCount headers rows := le_max_left _ _
    omega
  · intro r hr
    simp only [normalizeTable, List.mem_map] at hr
    obtain ⟨r', hr', rfl⟩ := hr
    simp only [List.length_append, List.length_replicate]
    have h1 : r'.length ≤ colCount headers rows :=
      le_trans (length_le_foldr_max rows r' hr') (le_max_right _ _)
    omega

/-- Witness for C7's amended theorem at a concrete ragged table. -/
theorem normalizeTable_uniform_lengths_witness :
    ([PyCell.str "c", PyCell.str ""] ∈ (normalizeTable ["a", "b"] [[PyCell.str "c"]]).2) ∧
    ([PyCell.str "c", PyCell.str ""] : List PyCell).length = colCount ["a", "b"] [[PyCell.str "c"]] :=
  ⟨by decide, (normalizeTable_uniform_lengths ["a", "b"] [[PyCell.str "c"]]).2 _ (by decide)⟩

/-! ## C2: width conservation -/

/-- Every successfully measured cell width is positive: a text cell measures
at least the `+ 4` padding, an image cell `30·W/H` with positive dimensions. -/
theorem cellRawWidth_pos (b : Backend) (cell : PyCell) (w : ℚ)
    (h : cellRawWidth b cell = .ok w) : 0 < w := by
  unfold cellRawWidth at h
  split at h
  · split at h
    · rename_i im _
      simp only [Except.ok.injEq] at h
      subst h
      have h30 : (0 : ℚ) < IMAGE_CELL_HEIGHT := by norm_num [IMAGE_CELL_HEIGHT]
      exact div_pos (mul_pos h30 im.width_pos) im.height_pos
    · cases h
  · have hn := b.strWidth_nonneg "" 12 (cellText cell)
    simp only [Except.ok.injEq] at h
    linarith

/-- The max-fold of `rawColWidth` never decreases below its accumulator. -/
theorem rawColWidth_fold_ge (b : Backend) :
    ∀ (cells : List PyCell) (acc r : ℚ),
      cells.foldlM (fun acc c => do
        let w ← cellRawWidth b c
        pure (max acc w)) acc = .ok r → acc ≤ r := by
  intro cells
  induction cells with
  | nil =>
    intro acc r h
    simp only [List.foldlM_nil, pure, Except.pure] at h
    cases h
    exact le_refl _
  | cons c cs ih =>
    intro acc r h
    simp only [List.foldlM_cons] at h
    rcases hc : cellRawWidth b c with e | w <;>
      simp only [hc, Except.bind, pure, Except.pure] at h
    · cases h
    · exact le_trans (le_max_left acc w) (ih _ _ h)

/-- A non-empty column's raw width is positive. -/
theorem rawColWidth_pos (b : Backend) (c : PyCell) (cs : List PyCell) (r : ℚ)
    (h : rawColWidth b (c :: cs) = .ok r) : 0 < r := by
  unfold rawColWidth at h
  simp only [List.foldlM_cons] at h
  rcases hc : cellRawWidth b c with e | w <;>
    simp only [hc, Except.bind, pure, Except.pure] at h
  · cases h
  · have h1 : max 0 w ≤ r := rawColWidth_fold_ge b cs _ _ h
    have h2 : 0 < w := cellRawWidth_pos b c w hc
    exact lt_of_lt_of_le (lt_max_of_lt_right h2) h1

/-- Successful `exceptMap` preserves length. -/
theorem exceptMap_ok_length (f : ℕ → Except String ℚ) :
    ∀ (l : List ℕ) (res : List ℚ), exceptMap f l = .ok res → res.length = l.length := by
  intro l
  induction l with
  | nil =>
    intro res h
    simp only [exceptMap, Except.ok.injEq] at h
    subst h
    rfl
  | cons a l ih =>
    intro res h
    simp only [exceptMap] at h
    rcases ha : f a with e | y <;>
      simp only [ha, Except.bind, bind, pure, Except.pure] at h
    · cases h
    · rcases hl : exceptMap f l with e | ys <;> rw [hl] at h
      · cases h
      · simp only [Except.ok.injEq] at h
        subst h
        simp [ih ys hl]

/-- Every element produced by a successful `exceptMap` is the image of an
element of the input list. -/
theorem exceptMap_ok_mem (f : ℕ → Except String ℚ) :
    ∀ (l : List ℕ) (res : List ℚ), exceptMap f l = .ok res →
      ∀ y ∈ res, ∃ x ∈ l, f x = .ok y := by
  intro l
  induction l with
  | nil =>
    intro res h y hy
    simp only [exceptMap, Except.ok.injEq] at h
    subst h
    cases hy
  | cons a l ih =>
    intro res h y hy
    simp only [exceptMap] at h
    rcases ha : f a with e | z <;>
      simp only [ha, Except.bind, bind, pure, Except.pure] at h
    · cases h
    · rcases hl : exceptMap f l with e | ys <;> rw [hl] at h
      · cases h
      · simp only [Except.ok.injEq] at h
        subst h
        rcases List.mem_cons.mp hy with rfl | hy'
        · exact ⟨a, List.mem_cons_self a l, ha⟩
        · obtain ⟨x, hx, hfx⟩ := ih ys hl y hy'
          exact ⟨x, List.mem_cons_of_mem a hx, hfx⟩

/-- Scaling distributes over a list sum. -/
theorem sum_map_mul (l : List ℚ) (s : ℚ) :
    (l.map (fun w => w * s)).sum = l.sum * s := by
  induction l with
  | nil => simp
  | cons a l ih => simp [ih, add_mul]

/-- C2: width conservation.  For every table with at least one column, the
widths computed by `_render_table` sum to the effective page width exactly
(so in particular within the spec's `1e-6` tolerance): every raw column
width is positive, hence their sum is non-zero, the `or epw` guard leaves it
unchanged, and multiplying by `epw / sum` makes the scaled widths sum to
`epw`.  (The claim's overflow-warning alternative is never needed.) -/
theorem computeColWidths_sum_epw (b : Backend) (epw : ℚ) (headers : List String)
    (rows : List (List PyCell)) (ws : List ℚ)
    (hn : 0 < colCount headers rows)
    (h : computeColWidths b epw headers rows = .ok ws) :
    ws.sum = epw := by
  unfold computeColWidths at h
  rcases hraw : computeRawWidths b (colCount headers rows)
      (normalizeTable headers rows).1 (normalizeTable headers rows).2 with e | raw <;>
    rw [hraw] at h <;>
    simp only [Except.bind, bind, pure, Except.pure, Except.ok.injEq] at h
  · cases h
  · subst h
    have hlen : raw.length = colCount headers rows := by
      have := exceptMap_ok_length _ _ _ hraw
      simpa using this
    have hpos : ∀ w ∈ raw, 0 < w := by
      intro w hw
      obtain ⟨idx, _, hidx⟩ := exceptMap_ok_mem _ _ _ hraw w hw
      exact rawColWidth_pos b _ _ w hidx
    have hne : raw ≠ [] := by
      intro hcontra
      rw [hcontra] at hlen
      simp at hlen
      omega
    have hsum : 0 < raw.sum := List.sum_pos raw hpos hne
    rw [sum_map_mul]
    rw [pyOrQ, if_neg (ne_of_gt hsum)]
    field_simp

/-- Concrete evaluation: the column widths of a two-column table under
`bkLen`. -/
theorem eval_colWidths_ab : computeColWidths bkLen 11 ["a", "bb"] [] = .ok [5, 6] := by
  have hn : normalizeTable ["a", "bb"] [] = (["a", "bb"], []) := by decide
  have hga : getImagePath (PyCell.str "a") = none := by decide
  have hgb : getImagePath (PyCell.str "bb") = none := by decide
  have hla : ("a".length : ℚ) = 1 := by rfl
  have hlb : ("bb".length : ℚ) = 2 := by rfl
  have hc : colCount ["a", "bb"] ([] : List (List PyCell)) = 2 := by decide
  simp only [computeColWidths, computeRawWidths, hn, hc]
  norm_num [List.range_succ, exceptMap, columnCells, rawColWidth,
    cellRawWidth, hga, hgb, bkLen, List.foldlM, Except.bind, bind, pure, Except.pure,
    pyOrQ, hla, hlb, cellText, sup_eq_max, max_def]

/-- Witness for C2 at a concrete two-column table. -/
theorem computeColWidths_sum_epw_witness :
    0 < colCount ["a", "bb"] [] ∧ ([5, 6] : List ℚ).sum = 11 :=
  ⟨by decide, computeColWidths_sum_epw bkLen 11 ["a", "bb"] [] [5, 6] (by decide)
    eval_colWidths_ab⟩

/-! ## C5: per-column minimum widths -/

/-- Split a character list at every character satisfying `p`. -/
def splitWhenAux (p : Char → Bool) : List Char → List (List Char)
  | [] => [[]]
  | c :: rest =>
    match splitWhenAux p rest with
    | [] => [[c]]
    | g :: gs => if p c then [] :: g :: gs else (c :: g) :: gs

/-- Python `s.split()` with no separator: the maximal whitespace-free runs —
the spec's "unbreakable tokens" (Glossary). -/
def whitespaceTokens (s : String) : List String :=
  ((splitWhenAux Char.isWhitespace s.data).map String.mk).filter (fun t => t ≠ "")

/-- Modelled from the spec (§4.2), for comparison with the implementation:
the per-column minimum width is the measured width of the column's longest
unbreakable token (header text or any cell's longest word), measured as the
width pass measures content (regular font, size 12). -/
def specMinWidth (b : Backend) (cells : List PyCell) : ℚ :=
  (cells.map (fun c =>
    ((whitespaceTokens (cellText c)).map
      (fun t => b.strWidth "" 12 t)).foldr max 0)).foldr max 0

/-- A 100-character unbreakable word. -/
def w100 : String := String.mk (List.replicate 100 'x')

/-- C5 counterexample: under the character-width oracle `bkLen`, a two-column
table whose first column holds a 100-unit unbreakable word on a page of
width 50 gets first-column width `5200/109 ≈ 47.7`, strictly below the
column's longest-token minimum width 100 that the claim says is always
honoured (`max(prop_width, min_width)`).  The allocator scales raw content
widths proportionally and enforces no minimum. -/
theorem colWidths_below_token_min_cex :
    computeColWidths bkLen 50 ["A", "B"] [[PyCell.str w100, PyCell.str "y"]]
      = .ok [5200 / 109, 250 / 109] ∧
    specMinWidth bkLen (columnCells ["A", "B"] [[PyCell.str w100, PyCell.str "y"]] 0)
      = 100 ∧
    (5200 / 109 : ℚ) < 100 := by
  have hlen : w100.length = 100 := by decide
  have hq : (w100.length : ℚ) = 100 := by rw [hlen]; norm_num
  have hqA : ("A".length : ℚ) = 1 := by rfl
  have hqB : ("B".length : ℚ) = 1 := by rfl
  have hqy : ("y".length : ℚ) = 1 := by rfl
  have hga : getImagePath (PyCell.str "A") = none := by decide
  have hgw : getImagePath (PyCell.str w100) = none := by decide
  have hgy : getImagePath (PyCell.str "y") = none := by decide
  have hgb : getImagePath (PyCell.str "B") = none := by decide
  have hn : normalizeTable ["A", "B"] [[PyCell.str w100, PyCell.str "y"]] =
      (["A", "B"], [[PyCell.str w100, PyCell.str "y"]]) := by decide
  have hc : colCount ["A", "B"] [[PyCell.str w100, PyCell.str "y"]] = 2 := by decide
  have htA : whitespaceTokens "A" = ["A"] := by decide
  have htW : whitespaceTokens w100 = [w100] := by decide
  refine ⟨?_, ?_, by norm_num⟩
  · simp only [computeColWidths, computeRawWidths, hn, hc]
    norm_num [List.range_succ, exceptMap, columnCells, rawColWidth,
      cellRawWidth, hga, hgb, hgw, hgy, bkLen, List.foldlM, Except.bind, bind, pure,
      Except.pure, pyOrQ, hq, hqA, hqB, hqy, cellText, sup_eq_max, max_def]
  · simp only [specMinWidth, columnCells, List.getD]
    norm_num [htA, htW, bkLen, cellText, hq, hqA, sup_eq_max, max_def]

/-- `getD` after scaling every entry. -/
theorem getD_map_mul (l : List ℚ) (s : ℚ) :
    ∀ i, (l.map (fun w => w * s)).getD i 0 = l.getD i 0 * s := by
  induction l with
  | nil => intro i; simp
  | cons a t ih =>
    intro i
    cases i with
    | zero => simp
    | succ n =>
      simp only [List.map_cons, List.getD_cons_succ]
      exact ih n

/-- C5 (amended): the allocator is purely proportional.  The widths of
`_render_table` are the raw content widths (longest cell's measured string
width `+ 4`, or aspect-scaled image width) scaled by a common factor
`epw / (sum or epw)`; no per-column minimum derived from the longest
unbreakable token is enforced, and a column can end up narrower than its
longest token (see the counterexample). -/
theorem computeColWidths_proportional (b : Backend) (epw : ℚ)
    (headers : List String) (rows : List (List PyCell)) (ws : List ℚ)
    (h : computeColWidths b epw headers rows = .ok ws) :
    ∃ raw, computeRawWidths b (colCount headers rows)
        (normalizeTable headers rows).1 (normalizeTable headers rows).2 = .ok raw ∧
      ws.length = raw.length ∧
      ∀ i j, ws.getD i 0 * raw.getD j 0 = ws.getD j 0 * raw.getD i 0 := by
  unfold computeColWidths at h
  rcases hraw : computeRawWidths b (colCount headers rows)
      (normalizeTable headers rows).1 (normalizeTable headers rows).2 with e | raw <;>
    rw [hraw] at h <;>
    simp only [Except.bind, bind, pure, Except.pure, Except.ok.injEq] at h
  · cases h
  · subst h
    refine ⟨raw, rfl, by simp, ?_⟩
    intro i j
    rw [getD_map_mul, getD_map_mul]
    ring

/-- Witness for C5's amended theorem at a concrete table. -/
theorem computeColWidths_proportional_witness :
    ∃ raw, computeRawWidths bkLen (colCount ["a", "bb"] [])
        (normalizeTable ["a", "bb"] []).1 (normalizeTable ["a", "bb"] []).2 = .ok raw ∧
      ([5, 6] : List ℚ).length = raw.length ∧
      ∀ i j, ([5, 6] : List ℚ).getD i 0 * raw.getD j 0 =
        ([5, 6] : List ℚ).getD j 0 * raw.getD i 0 :=
  computeColWidths_proportional bkLen 11 ["a", "bb"] [] [5, 6] eval_colWidths_ab

/-! ## C4: missing image files -/

/-- A row whose cells include an image path with no readable file makes the
`_split_row_cells` loop raise. -/
theorem splitCellsAux_error (b : Backend) (style : String) (size lh : ℚ) :
    ∀ (l : List (PyCell × ℚ)) (m : ℕ),
      (∃ pr ∈ l, ∃ p, getImagePath pr.1 = some p ∧ b.fs p = none) →
      ∃ e, splitCellsAux b style size lh l m = .error e := by
  intro l
  induction l with
  | nil =>
    intro m h
    obtain ⟨pr, hpr, _⟩ := h
    cases hpr
  | cons hd tl ih =>
    obtain ⟨cell, cw⟩ := hd
    intro m h
    obtain ⟨pr, hpr, p, hgp, hfs⟩ := h
    rcases List.mem_cons.mp hpr with rfl | hmem
    · refine ⟨p, ?_⟩
      simp only [splitCellsAux, splitCell, hgp, hfs, Except.bind, bind]
    · rcases hsc : splitCell b style size cw lh cell with e | pr2
      · exact ⟨e, by simp [splitCellsAux, hsc, Except.bind, bind]⟩
      · obtain ⟨e', he'⟩ := ih (max m pr2.2) ⟨pr, hmem, p, hgp, hfs⟩
        refine ⟨e', ?_⟩
        simp [splitCellsAux, hsc, Except.bind, bind, he']

/-- C4 (amended): a table cell recognised as an image path whose file is
missing or unreadable makes `Image.open` raise out of `_split_row_cells` —
there is no fallback to rendering the path as text, and the exception
propagates: rendering the row (and hence the document) aborts. -/
theorem splitRowCells_missing_image_aborts (b : Backend) (style : String)
    (size lh : ℚ) (cells : List PyCell) (ws : List ℚ)
    (h : ∃ pr ∈ cells.zip ws, ∃ p, getImagePath pr.1 = some p ∧ b.fs p = none) :
    ∃ e, splitRowCells b style size cells ws lh = .error e := by
  obtain ⟨e, he⟩ := splitCellsAux_error b style size lh (cells.zip ws) 1 h
  exact ⟨e, by simp [splitRowCells, he, Except.bind, bind]⟩

/-- Witness for C4's amended theorem on a concrete missing image. -/
theorem splitRowCells_missing_image_aborts_witness :
    (∃ pr ∈ [PyCell.str "missing.png"].zip [(50 : ℚ)],
      ∃ p, getImagePath pr.1 = some p ∧ bkLen.fs p = none) ∧
    ∃ e, splitRowCells bkLen "" 12 [PyCell.str "missing.png"] [(50 : ℚ)] 6 = .error e :=
  ⟨⟨(PyCell.str "missing.png", 50), by decide, "missing.png", by decide, rfl⟩,
   splitRowCells_missing_image_aborts bkLen "" 12 6 [PyCell.str "missing.png"] [(50 : ℚ)]
     ⟨(PyCell.str "missing.png", 50), by decide, "missing.png", by decide, rfl⟩⟩

/-- C4 counterexample: rendering a table containing a cell whose value is an
image path with no file behind it does not fall back to text — the row split
raises, and the whole `_render_table` call aborts with the exception. -/
theorem splitRowCells_missing_image_cex :
    splitRowCells bkLen "" 12 [PyCell.str "missing.png"] [(50 : ℚ)] 6
      = .error "missing.png" ∧
    renderTable bkLen (geomFor "P") ⟨1, 15⟩ ["H"] [[PyCell.str "missing.png"]]
      = .error "missing.png" := by
  constructor
  · decide
  · have hgH : getImagePath (PyCell.str "H") = none := by decide
    have hgM : getImagePath (PyCell.str "missing.png") = some "missing.png" := by decide
    have hn : normalizeTable ["H"] [[PyCell.str "missing.png"]] =
        (["H"], [[PyCell.str "missing.png"]]) := by decide
    have hc : colCount ["H"] [[PyCell.str "missing.png"]] = 1 := by decide
    have hcw : computeColWidths bkLen (geomFor "P").epw ["H"] [[PyCell.str "missing.png"]]
        = .error "missing.png" := by
      simp only [computeColWidths, computeRawWidths, hn, hc]
      norm_num [List.range_succ, exceptMap, columnCells, rawColWidth, cellRawWidth,
        hgH, hgM, bkLen, List.foldlM, Except.bind, bind, pure, Except.pure, cellText]
    simp [renderTable, hcw, Except.bind, bind]

/-! ## C8: wrapping failures never abort a text row -/

/-- On image-free rows the `_split_row_cells` loop always succeeds, recording
for every cell the wrapped lines — or the `[text]` fallback when the wrapping
call raised. -/
theorem splitCellsAux_text_ok (b : Backend) (style : String) (size lh : ℚ) :
    ∀ (l : List (PyCell × ℚ)) (m : ℕ),
      (∀ pr ∈ l, getImagePath pr.1 = none) →
      ∃ m', splitCellsAux b style size lh l m =
        .ok (l.map (fun pr =>
          CellContent.lines (wrapOrFallback b style size pr.2 (cellText pr.1))), m') := by
  intro l
  induction l with
  | nil =>
    intro m _
    exact ⟨m, rfl⟩
  | cons hd tl ih =>
    obtain ⟨cell, cw⟩ := hd
    intro m h
    have hhd : getImagePath cell = none := h (cell, cw) (List.mem_cons_self _ _)
    have htl : ∀ pr ∈ tl, getImagePath pr.1 = none :=
      fun pr hpr => h pr (List.mem_cons_of_mem _ hpr)
    obtain ⟨m', hm⟩ :=
      ih (max m (wrapOrFallback b style size cw (cellText cell)).length) htl
    refine ⟨m', ?_⟩
    simp [splitCellsAux, splitCell, hhd, hm, Except.bind, bind]

/-- C8: for text cells, a wrapping failure is always recovered locally.
A row none of whose cells is an image path always splits successfully, and
every cell is recorded as a line list — the wrapped lines when
`multi_cell(split_only=True)` succeeds, the single-element fallback
`[text]` when it raises `FPDFException`; only image loading (and the backend
draw calls themselves) can abort. -/
theorem splitRowCells_text_never_fails (b : Backend) (style : String)
    (size lh : ℚ) (cells : List PyCell) (ws : List ℚ)
    (h : ∀ c ∈ cells, getImagePath c = none) :
    ∃ height, splitRowCells b style size cells ws lh =
      .ok ((cells.zip ws).map (fun pr =>
        CellContent.lines (wrapOrFallback b style size pr.2 (cellText pr.1))), height) := by
  have hz : ∀ pr ∈ cells.zip ws, getImagePath pr.1 = none := by
    intro pr hpr
    obtain ⟨a, c⟩ := pr
    exact h a (List.of_mem_zip hpr).1
  obtain ⟨m', hm⟩ := splitCellsAux_text_ok b style size lh (cells.zip ws) 1 hz
  exact ⟨lh * (m' : ℚ), by simp [splitRowCells, hm, Except.bind, bind]⟩

/-- Witness for C8 under a backend whose wrapper always raises: the fallback
`[text]` is used and the row still splits. -/
theorem splitRowCells_text_never_fails_witness :
    (∀ c ∈ [PyCell.str "hello"], getImagePath c = none) ∧
    ∃ height, splitRowCells bkErr "" 12 [PyCell.str "hello"] [(10 : ℚ)] 6 =
      .ok (([PyCell.str "hello"].zip [(10 : ℚ)]).map (fun pr =>
        CellContent.lines (wrapOrFallback bkErr "" 12 pr.2 (cellText pr.1))), height) :=
  ⟨by decide,
   splitRowCells_text_never_fails bkErr "" 12 6 [PyCell.str "hello"] [(10 : ℚ)] (by decide)⟩

/-! ## C9: image cell geometry -/

/-- C9 (amended): an image cell is recorded with the aspect-scaled width
`30·W/H` and fixed height 30; the drawn width passed to the backend is the
full `30·W/H` (fpdf derives it from the aspect ratio, which is therefore
preserved), *not* clamped to the cell; the `min(width, cw - 2)` clamp enters
only the horizontal centring offset, so the image is truly centred exactly
when `30·W/H ≤ cw - 2` and otherwise overflows the cell. -/
theorem image_cell_geometry (b : Backend) (style : String)
    (size cw lh x yStart rowHeight : ℚ) (cell : PyCell) (p : String) (im : ImgDims)
    (hp : getImagePath cell = some p) (hfs : b.fs p = some im) :
    splitCell b style size cw lh cell =
      .ok (.image p (IMAGE_CELL_HEIGHT * im.width / im.height) IMAGE_CELL_HEIGHT,
           Int.toNat ⌈IMAGE_CELL_HEIGHT / lh⌉) ∧
    drawnImageWidth b p IMAGE_CELL_HEIGHT = IMAGE_CELL_HEIGHT * im.width / im.height ∧
    drawnImageWidth b p IMAGE_CELL_HEIGHT * im.height = IMAGE_CELL_HEIGHT * im.width ∧
    imageCellOps 0 x yStart cw rowHeight p (IMAGE_CELL_HEIGHT * im.width / im.height)
        IMAGE_CELL_HEIGHT =
      [.rect x yStart cw rowHeight,
       .image p
         (x + (cw - min (IMAGE_CELL_HEIGHT * im.width / im.height) (cw - 2)) / 2)
         (yStart + (rowHeight - IMAGE_CELL_HEIGHT) / 2) IMAGE_CELL_HEIGHT] ∧
    (IMAGE_CELL_HEIGHT * im.width / im.height ≤ cw - 2 →
      (x + (cw - min (IMAGE_CELL_HEIGHT * im.width / im.height) (cw - 2)) / 2)
        + (IMAGE_CELL_HEIGHT * im.width / im.height) / 2 = x + cw / 2) := by
  refine ⟨by simp [splitCell, hp, hfs], by simp [drawnImageWidth, hfs], ?_,
    by simp [imageCellOps], ?_⟩
  · simp only [drawnImageWidth, hfs]
    exact div_mul_cancel₀ _ (ne_of_gt im.height_pos)
  · intro hle
    rw [min_eq_left hle]
    ring

/-- Witness for C9's amended theorem at the concrete 300×30 image. -/
theorem image_cell_geometry_witness :
    getImagePath (PyCell.str "a.png") = some "a.png" ∧
    drawnImageWidth bkImg "a.png" IMAGE_CELL_HEIGHT =
      IMAGE_CELL_HEIGHT * (300 : ℚ) / 30 := by
  have hfs : bkImg.fs "a.png" = some ⟨300, 30, by norm_num, by norm_num⟩ := by
    simp [bkImg]
  exact ⟨by decide,
    (image_cell_geometry bkImg "" 12 50 6 15 15 30 (PyCell.str "a.png") "a.png"
      ⟨300, 30, by norm_num, by norm_num⟩ (by decide) hfs).2.1⟩

/-- C9 counterexample: with a 300×30 image in a column of width 50 the image
op is drawn at height 30, so its drawn width is `30·300/30 = 300`, while the
claim's `min(scaled, cw − 2)` is 48: the clamp is not applied to the drawn
size (the image overflows the cell), it only shifts the centring offset. -/
theorem image_drawn_width_cex :
    renderTableRow bkImg "" 12 (geomFor "P") ⟨1, 15⟩ [PyCell.str "a.png"] [(50 : ℚ)] 6
      = .ok ([.rect 15 15 50 30, .image "a.png" 16 15 30], 30, ⟨1, 45⟩) ∧
    drawnImageWidth bkImg "a.png" 30 = 300 ∧
    ((300 : ℚ) ≠ min 300 (50 - 2)) ∧ min (300 : ℚ) (50 - 2) = 48 := by
  have hg : getImagePath (PyCell.str "a.png") = some "a.png" := by decide
  have hgeom : geomFor "P" = ⟨180, 15, 15, 282⟩ := by decide
  have htn : Int.toNat 5 = 5 := rfl
  refine ⟨?_, by norm_num [drawnImageWidth, bkImg], by norm_num [min_def],
    by norm_num [min_def]⟩
  simp only [renderTableRow, splitRowCells, splitCellsAux, splitCell, hg, bkImg, hgeom]
  norm_num [Except.bind, bind, pure, Except.pure, renderTableRowOps, List.range_succ,
    rowLineOps, imageCellOps, sup_eq_max, max_def, min_def, IMAGE_CELL_HEIGHT, htn,
    breakCount, Draw.isBreak, List.countP_cons, List.countP_nil,
    List.flatMap_cons, List.flatMap_nil]

/-! ## C10: emission / parsing round trip -/

/-- String append acts componentwise on the character data. -/
theorem data_append2 (s t : String) : (s ++ t).data = s.data ++ t.data := by
  cases s
  cases t
  rfl

/-- Every rendered scene row begins with `"|"`. -/
theorem sceneRow_startsBar (s : Scene) : pyStartsWith (sceneRow s) "|" = true := by
  unfold sceneRow pyStartsWith
  have hd : ("| ").data = ['|', ' '] := rfl
  simp only [data_append2, hd, List.append_assoc, List.cons_append]
  rfl

/-- The row-consuming loop takes exactly the rendered scene rows. -/
theorem takeTableRows_map (l : List Scene) :
    takeTableRows (l.map sceneRow) = l.map (fun s => parseCells (sceneRow s)) := by
  induction l with
  | nil => rfl
  | cons s ss ih => simp [takeTableRows, sceneRow_startsBar, ih]

/-- Parsing the emitted header line recovers the seven column titles. -/
theorem parseCells_sceneHeader : parseCells sceneHeaderLine = sevenHeaders := by decide

/-- C10: round trip between `_scenes_table` and `_parse_table_block`.  For a
non-empty scene list, parsing the emitted lines from the header line (index
2) yields exactly the seven column headers, one parsed row per scene in
order, and the next-line index just past the table (`4 + number of scenes`,
the end of the emitted lines). -/
theorem scenesTable_parse_roundtrip (scenes : List Scene) (h : scenes ≠ []) :
    parseTableBlock (scenesTable scenes) 2 =
      (sevenHeaders, scenes.map (fun s => parseCells (sceneRow s)),
       4 + scenes.length) := by
  match scenes, h with
  | s :: ss, _ =>
    show parseTableBlock (scenesTable (s :: ss)) 2 = _
    have hne : (s :: ss : List Scene).isEmpty = false := rfl
    simp only [scenesTable, hne, Bool.false_eq_true, if_false]
    simp only [parseTableBlock, List.cons_append, List.nil_append]
    have ht := takeTableRows_map (s :: ss)
    simp only [List.map_cons] at ht
    simp [List.get?, List.drop, ht, parseCells_sceneHeader, List.getD]

/-- Witness for C10 at a one-scene analyzer. -/
theorem scenesTable_parse_roundtrip_witness :
    ([⟨none, none, "a", "b", "c", "d", [], none, none, none, none, none⟩] : List Scene)
      ≠ [] ∧
    parseTableBlock
      (scenesTable [⟨none, none, "a", "b", "c", "d", [], none, none, none, none, none⟩]) 2 =
      (sevenHeaders,
       ([⟨none, none, "a", "b", "c", "d", [], none, none, none, none, none⟩] : List Scene).map
         (fun s => parseCells (sceneRow s)),
       4 + ([⟨none, none, "a", "b", "c", "d", [], none, none, none, none, none⟩] : List Scene).length) :=
  ⟨by decide,
   scenesTable_parse_roundtrip
     [⟨none, none, "a", "b", "c", "d", [], none, none, none, none, none⟩] (by decide)⟩

/-! ## C1/C3 groundwork: row heights and draw bounds -/

/-- The shape of a successful `splitCell`: a text cell's line count, or an
image cell of height 30 with the ceiling line count. -/
theorem splitCell_shape (b : Backend) (style : String) (size cw lh : ℚ)
    (cell : PyCell) (content : CellContent) (mc : ℕ)
    (h : splitCell b style size cw lh cell = .ok (content, mc)) :
    (∃ ls, content = .lines ls ∧ mc = ls.length) ∨
    (∃ p w, content = .image p w IMAGE_CELL_HEIGHT ∧
      mc = Int.toNat ⌈IMAGE_CELL_HEIGHT / lh⌉) := by
  unfold splitCell at h
  split at h
  · split at h
    · simp only [Except.ok.injEq, Prod.mk.injEq] at h
      right
      exact ⟨_, _, h.1.symm, h.2.symm⟩
    · cases h
  · simp only [Except.ok.injEq, Prod.mk.injEq] at h
    left
    exact ⟨_, h.1.symm, h.2.symm⟩

/-- The `_split_row_cells` loop: the accumulator never decreases, and every
recorded cell respects the final `max_lines`. -/
theorem splitCellsAux_facts (b : Backend) (style : String) (size lh : ℚ) :
    ∀ (l : List (PyCell × ℚ)) (m0 : ℕ) (cl : List CellContent) (m : ℕ),
      splitCellsAux b style size lh l m0 = .ok (cl, m) →
      m0 ≤ m ∧ ∀ c ∈ cl,
        (∃ ls, c = .lines ls ∧ ls.length ≤ m) ∨
        (∃ p w, c = .image p w IMAGE_CELL_HEIGHT ∧
          Int.toNat ⌈IMAGE_CELL_HEIGHT / lh⌉ ≤ m) := by
  intro l
  induction l with
  | nil =>
    intro m0 cl m h
    simp only [splitCellsAux, Except.ok.injEq, Prod.mk.injEq] at h
    obtain ⟨rfl, rfl⟩ := h
    exact ⟨le_refl _, by simp⟩
  | cons hd tl ih =>
    obtain ⟨cell, cw⟩ := hd
    intro m0 cl m h
    simp only [splitCellsAux] at h
    rcases hsc : splitCell b style size cw lh cell with e | pr <;>
      rw [hsc] at h <;>
      simp only [Except.bind, bind] at h
    · cases h
    · obtain ⟨content, mc⟩ := pr
      rcases haux : splitCellsAux b style size lh tl (max m0 mc) with e | pr2 <;>
        rw [haux] at h
      · cases h
      · obtain ⟨tl2, m2⟩ := pr2
        simp only [Except.ok.injEq, Prod.mk.injEq] at h
        obtain ⟨rfl, rfl⟩ := h
        obtain ⟨hge, hall⟩ := ih (max m0 mc) tl2 m2 haux
        have hm0 : m0 ≤ m2 := le_trans (le_max_left _ _) hge
        have hmc : mc ≤ m2 := le_trans (le_max_right _ _) hge
        refine ⟨hm0, ?_⟩
        intro c hc
        rcases List.mem_cons.mp hc with rfl | hc'
        · rcases splitCell_shape b style size cw lh cell c mc hsc with
            ⟨ls, rfl, hmcl⟩ | ⟨p, w, rfl, hmcl⟩
          · exact Or.inl ⟨ls, rfl, hmcl ▸ hmc⟩
          · exact Or.inr ⟨p, w, rfl, hmcl ▸ hmc⟩
        · exact hall c hc'

/-- A successful `_split_row_cells` call: the row height is
`line_height · max_lines` with `max_lines ≥ 1`, and every recorded cell fits
in `max_lines` lines. -/
theorem splitRowCells_facts (b : Backend) (style : String) (size : ℚ)
    (cells : List PyCell) (ws : List ℚ) (lh : ℚ) (cl : List CellContent) (rh : ℚ)
    (h : splitRowCells b style size cells ws lh = .ok (cl, rh)) :
    ∃ m : ℕ, 1 ≤ m ∧ rh = lh * (m : ℚ) ∧ ∀ c ∈ cl,
      (∃ ls, c = .lines ls ∧ ls.length ≤ m) ∨
      (∃ p w, c = .image p w IMAGE_CELL_HEIGHT ∧
        Int.toNat ⌈IMAGE_CELL_HEIGHT / lh⌉ ≤ m) := by
  unfold splitRowCells at h
  rcases haux : splitCellsAux b style size lh (cells.zip ws) 1 with e | pr <;>
    rw [haux] at h <;>
    simp only [Except.bind, bind] at h
  · cases h
  · obtain ⟨cl2, m⟩ := pr
    simp only [Except.ok.injEq, Prod.mk.injEq] at h
    obtain ⟨rfl, rfl⟩ := h
    obtain ⟨h1, hall⟩ := splitCellsAux_facts b style size lh (cells.zip ws) 1 cl2 m haux
    exact ⟨m, h1, rfl, hall⟩

/-- `_render_table_row` made explicit: once the row split is known, the call
returns the row ops, the row height, and the cursor — the page advanced by
one per automatic break the ops record, the y set to `y_start + row_height`
by the trailing absolute `set_xy`. -/
theorem renderTableRow_eq_of_split (b : Backend) (style : String) (size : ℚ)
    (g : Geom) (st : PdfState) (cells : List PyCell) (ws : List ℚ) (lh : ℚ)
    (cl : List CellContent) (rh : ℚ)
    (h : splitRowCells b style size cells ws lh = .ok (cl, rh)) :
    renderTableRow b style size g st cells ws lh =
      .ok (renderTableRowOps g cl ws lh rh g.lMargin st.y, rh,
           ⟨st.page + breakCount (renderTableRowOps g cl ws lh rh g.lMargin st.y),
            st.y + rh⟩) := by
  unfold renderTableRow
  rw [h]
  rfl

/-- When the whole row fits under the page-break trigger, one line pass of
`_render_table_row` fires no automatic page break and every draw instruction
stays within the row's vertical extent `[yStart, yStart + rowHeight]`. -/
theorem rowLineOps_fit (g : Geom) (lh yStart rowHeight : ℚ) (k mL : ℕ)
    (hlh : 0 < lh) (hk : k < mL) (hrh : rowHeight = lh * (mL : ℚ))
    (hfit : yStart + rowHeight ≤ g.trigger) :
    ∀ (l : List (CellContent × ℚ)) (x : ℚ),
      (∀ pr ∈ l,
        (∃ ls, pr.1 = CellContent.lines ls ∧ ls.length ≤ mL) ∨
        (∃ p w, pr.1 = CellContent.image p w IMAGE_CELL_HEIGHT ∧
          Int.toNat ⌈IMAGE_CELL_HEIGHT / lh⌉ ≤ mL)) →
      ∀ d ∈ rowLineOps g lh yStart rowHeight k mL x l,
        d.isBreak = false ∧
        yStart ≤ drawY d ∧ drawY d + drawH d ≤ yStart + rowHeight := by
  have hk' : (k : ℚ) + 1 ≤ (mL : ℚ) := by exact_mod_cast hk
  have h1 : ((k : ℚ) + 1) * lh ≤ (mL : ℚ) * lh :=
    mul_le_mul_of_nonneg_right hk' hlh.le
  have h0 : 0 ≤ (k : ℚ) * lh := mul_nonneg (Nat.cast_nonneg k) hlh.le
  have hnb : ¬(yStart + (k : ℚ) * lh + lh > g.trigger) := by
    rw [hrh] at hfit
    push_neg
    nlinarith
  intro l
  induction l with
  | nil =>
    intro x _ d hd
    cases hd
  | cons hd tl ih =>
    obtain ⟨content, cw⟩ := hd
    intro x hall d hdm
    have hc := hall (content, cw) (List.mem_cons_self _ _)
    have htl : ∀ pr ∈ tl,
        (∃ ls, pr.1 = CellContent.lines ls ∧ ls.length ≤ mL) ∨
        (∃ p w, pr.1 = CellContent.image p w IMAGE_CELL_HEIGHT ∧
          Int.toNat ⌈IMAGE_CELL_HEIGHT / lh⌉ ≤ mL) :=
      fun pr hpr => hall pr (List.mem_cons_of_mem _ hpr)
    rcases hc with ⟨ls, hceq, hle⟩ | ⟨p, w, hceq, hle⟩ <;> subst hceq <;>
      simp only [rowLineOps] at hdm <;>
      rcases List.mem_append.mp hdm with hmem | hmem
    · -- text cell at line k: no break since its bottom edge is under the trigger
      rw [textLineOps, if_neg hnb] at hmem
      simp only [List.mem_singleton] at hmem
      subst hmem
      refine ⟨rfl, ?_, ?_⟩
      · simp only [drawY]
        linarith
      · simp only [drawY, drawH]
        nlinarith
    · exact ih (x + cw) htl d hmem
    · -- image cell: border rectangle and the image itself, on line 0 only
      have h30 : IMAGE_CELL_HEIGHT ≤ rowHeight := by
        have hpos : (0 : ℚ) < IMAGE_CELL_HEIGHT / lh :=
          div_pos (by norm_num [IMAGE_CELL_HEIGHT]) hlh
        have hi1 : (⌈IMAGE_CELL_HEIGHT / lh⌉ : ℤ) ≤ (mL : ℤ) := Int.toNat_le.mp hle
        have hi2 : (⌈IMAGE_CELL_HEIGHT / lh⌉ : ℚ) ≤ (mL : ℚ) := by exact_mod_cast hi1
        have hi3 : IMAGE_CELL_HEIGHT / lh ≤ (mL : ℚ) :=
          le_trans (Int.le_ceil _) hi2
        have hi4 : IMAGE_CELL_HEIGHT ≤ (mL : ℚ) * lh := (div_le_iff₀ hlh).mp hi3
        rw [hrh]
        linarith [mul_comm (mL : ℚ) lh]
      by_cases hk0 : k = 0
      · subst hk0
        simp only [imageCellOps, if_pos rfl] at hmem
        cases hmem with
        | head =>
          refine ⟨rfl, ?_, ?_⟩ <;> simp only [drawY, drawH] <;> linarith
        | tail _ hmem2 =>
          cases hmem2 with
          | head =>
            refine ⟨rfl, ?_, ?_⟩ <;> simp only [drawY, drawH] <;> linarith
          | tail _ hmem3 => cases hmem3
      · simp only [imageCellOps, if_neg hk0] at hmem
        cases hmem
    · exact ih (x + cw) htl d hmem

/-- When the whole row fits under the page-break trigger,
`_render_table_row` fires no automatic page break and every draw instruction
stays within the row's vertical extent. -/
theorem renderTableRowOps_fit (b : Backend) (style : String) (size : ℚ)
    (cells : List PyCell) (ws : List ℚ) (lh : ℚ) (cl : List CellContent) (rh : ℚ)
    (g : Geom) (hlh : 0 < lh)
    (h : splitRowCells b style size cells ws lh = .ok (cl, rh))
    (xStart yStart : ℚ) (hfit : yStart + rh ≤ g.trigger) :
    breakCount (renderTableRowOps g cl ws lh rh xStart yStart) = 0 ∧
    ∀ d ∈ renderTableRowOps g cl ws lh rh xStart yStart,
      yStart ≤ drawY d ∧ drawY d + drawH d ≤ yStart + rh := by
  obtain ⟨m, _, hrh, hall⟩ :=
    splitRowCells_facts b style size cells ws lh cl rh h
  have hml : Int.toNat ⌊rh / lh⌋ = m := by
    rw [hrh, mul_div_cancel_left₀ _ (ne_of_gt hlh)]
    simp
  have hmain : ∀ d ∈ renderTableRowOps g cl ws lh rh xStart yStart,
      d.isBreak = false ∧ yStart ≤ drawY d ∧ drawY d + drawH d ≤ yStart + rh := by
    intro d hd
    unfold renderTableRowOps at hd
    rw [hml] at hd
    obtain ⟨k, hk, hdk⟩ := List.mem_flatMap.mp hd
    have hkm : k < m := List.mem_range.mp hk
    refine rowLineOps_fit g lh yStart rh k m hlh hkm hrh hfit (cl.zip ws) xStart
      ?_ d hdk
    intro pr hpr
    obtain ⟨c, cw⟩ := pr
    exact hall c (List.of_mem_zip hpr).1
  refine ⟨?_, fun d hd => (hmain d hd).2⟩
  rw [breakCount, List.countP_eq_zero]
  intro d hd
  simp [(hmain d hd).1]

/-- Inversion of a successful `_render_table_row` call: the returned height
comes from the row split, the ops are the row's draw instructions from the
cursor, and the final cursor advanced the page by the breaks fired and the y
by the row height. -/
theorem renderTableRow_inv (b : Backend) (style : String) (size : ℚ) (g : Geom)
    (st : PdfState) (cells : List PyCell) (ws : List ℚ) (lh : ℚ)
    (ops : List Draw) (rh : ℚ) (st' : PdfState)
    (h : renderTableRow b style size g st cells ws lh = .ok (ops, rh, st')) :
    ∃ cl, splitRowCells b style size cells ws lh = .ok (cl, rh) ∧
      ops = renderTableRowOps g cl ws lh rh g.lMargin st.y ∧
      st' = ⟨st.page + breakCount ops, st.y + rh⟩ := by
  unfold renderTableRow at h
  rcases hs : splitRowCells b style size cells ws lh with e | pr <;>
    rw [hs] at h <;> simp only [Except.bind, bind] at h
  · cases h
  · obtain ⟨cl, rh2⟩ := pr
    simp only [Except.ok.injEq, Prod.mk.injEq] at h
    obtain ⟨h1, h2, h3⟩ := h
    subst h2
    subst h1
    exact ⟨cl, rfl, rfl, h3.symm⟩

/-! ## C1/C3: the page-flow invariant of `_render_table` -/

/-- The page a placement's render left the cursor on: its starting page plus
one per automatic break fired while drawing it. -/
def endPage (pl : Placement) : ℕ :=
  pl.page + breakCount pl.ops

/-- Successive placements: either placed immediately below where the previous
render left the cursor (same page as that render ended on), or at the top
margin of the next fresh page (the explicit `pdf.add_page()` of the row
loop). -/
def placeStep (g : Geom) (pl pl2 : Placement) : Prop :=
  (pl2.page = endPage pl ∧ pl2.yStart = pl.yStart + pl.height) ∨
  (pl2.page = endPage pl + 1 ∧ pl2.yStart = g.tMargin)

/-- Invariant of the data-row loop of `_render_table` relative to the cursor
`st` it starts from: pages at or before `st.page` get no further header
draws; when no placement fires an automatic page break, every later page a
placement starts on gets exactly one header draw and it is the first
placement on that page; headers are drawn in bold; consecutive placements
stack downward from where the previous render ended or start a fresh page at
the top margin; the data rows appear exactly once each, in order; a
placement that fits under the page-break trigger fires no automatic break
and all its draw instructions stay inside its vertical extent; and every
data row either fits under the trigger or sits at the top margin right below
the repeated bold header (on the page that header's render ended on). -/
structure RowsInv (g : Geom) (st : PdfState) (idx n : ℕ) (ps : List Placement) : Prop where
  noHdrOld : ∀ q, q ≤ st.page →
    ((ps.filter (fun pl => pl.page == q)).countP (fun pl => pl.isHeader)) = 0
  oneHdrNew : (∀ pl ∈ ps, breakCount pl.ops = 0) →
    ∀ q, st.page < q → (ps.filter (fun pl => pl.page == q)) ≠ [] →
    ((ps.filter (fun pl => pl.page == q)).countP (fun pl => pl.isHeader)) = 1
  headFirst : (∀ pl ∈ ps, breakCount pl.ops = 0) →
    ∀ q pl, st.page < q →
    ((ps.filter (fun pl2 => pl2.page == q)).head? = some pl) → pl.isHeader = true
  pagesGe : ∀ pl ∈ ps, st.page ≤ pl.page
  boldHdr : ∀ pl ∈ ps, pl.isHeader = true → pl.style = "B"
  chain : List.Chain' (placeStep g) ps
  link : ∀ pl, ps.head? = some pl →
    (pl.page = st.page ∧ pl.yStart = st.y) ∨ (pl.page = st.page + 1 ∧ pl.yStart = g.tMargin)
  rowIdxs : (ps.filter (fun pl => !pl.isHeader)).map (fun pl => pl.rowIdx) = List.range' idx n
  fitBounds : ∀ pl ∈ ps, pl.yStart + pl.height ≤ g.trigger →
    breakCount pl.ops = 0 ∧ ∀ d ∈ pl.ops,
      pl.yStart ≤ drawY d ∧ drawY d + drawH d ≤ pl.yStart + pl.height
  fitOrFresh : ∀ pl ∈ ps, pl.isHeader = false →
    pl.yStart + pl.height ≤ g.trigger ∨
    ∃ hpl, hpl ∈ ps ∧ hpl.isHeader = true ∧ endPage hpl = pl.page ∧
      pl.yStart = g.tMargin + hpl.height

theorem filter_page_cons_ne (q : ℕ) (pl : Placement) (l : List Placement)
    (h : pl.page ≠ q) :
    (pl :: l).filter (fun x => x.page == q) = l.filter (fun x => x.page == q) := by
  rw [List.filter_cons_of_neg]
  simp [h]

theorem filter_page_cons_eq (q : ℕ) (pl : Placement) (l : List Placement)
    (h : pl.page = q) :
    (pl :: l).filter (fun x => x.page == q) = pl :: l.filter (fun x => x.page == q) := by
  rw [List.filter_cons_of_pos]
  simp [h]

theorem filter_nothdr_cons_data (pl : Placement) (l : List Placement)
    (h : pl.isHeader = false) :
    (pl :: l).filter (fun x => !x.isHeader) = pl :: l.filter (fun x => !x.isHeader) := by
  rw [List.filter_cons_of_pos]
  simp [h]

theorem filter_nothdr_cons_hdr (pl : Placement) (l : List Placement)
    (h : pl.isHeader = true) :
    (pl :: l).filter (fun x => !x.isHeader) = l.filter (fun x => !x.isHeader) := by
  rw [List.filter_cons_of_neg]
  simp [h]


/-- The data-row loop of `_render_table` maintains `RowsInv`. -/
theorem renderRows_inv (b : Backend) (g : Geom) (fontSize : ℚ)
    (headers : List String) (colWidths : List ℚ) (lh : ℚ) (hlh : 0 < lh) :
    ∀ (rs : List (List PyCell)) (idx : ℕ) (st : PdfState)
      (ps : List Placement) (stF : PdfState),
      renderRows b g fontSize headers colWidths lh rs idx st = .ok (ps, stF) →
      RowsInv g st idx rs.length ps := by
  intro rs
  induction rs with
  | nil =>
    intro idx st ps stF h
    simp only [renderRows, Except.ok.injEq, Prod.mk.injEq] at h
    obtain ⟨rfl, rfl⟩ := h
    constructor <;> simp [List.range']
  | cons r rest ih =>
    intro idx st ps stF h
    simp only [renderRows] at h
    rcases hs1 : splitRowCells b "" fontSize r colWidths lh with e | pr <;>
      rw [hs1] at h <;> simp only [Except.bind, bind] at h
    · cases h
    · obtain ⟨cl, rowH⟩ := pr
      by_cases hcond : st.y + rowH > g.trigger
      · -- page-break branch
        rw [if_pos hcond] at h
        simp only [addPage] at h
        rcases hrB : renderTableRow b "B" fontSize g ⟨st.page + 1, g.tMargin⟩
            (headers.map PyCell.str) colWidths lh with e | prB <;>
          rw [hrB] at h <;> simp only [Except.bind, bind] at h
        · cases h
        · obtain ⟨hOps, hH, stB⟩ := prB
          rcases hrD : renderTableRow b "" fontSize g stB r colWidths lh
              with e | prD <;> rw [hrD] at h <;> simp only [Except.bind, bind] at h
          · cases h
          · obtain ⟨rOps, rH, stC⟩ := prD
            rcases hrec : renderRows b g fontSize headers colWidths lh rest (idx + 1)
                stC with e | pr2 <;> rw [hrec] at h
            · cases h
            · obtain ⟨ps2, stF2⟩ := pr2
              simp only [Except.ok.injEq, Prod.mk.injEq] at h
              obtain ⟨rfl, rfl⟩ := h
              obtain ⟨hclB, hsplB, hopsB, hstB⟩ :=
                renderTableRow_inv b "B" fontSize g ⟨st.page + 1, g.tMargin⟩
                  (headers.map PyCell.str) colWidths lh hOps hH stB hrB
              obtain ⟨clD, hsplD, hopsD, hstC⟩ :=
                renderTableRow_inv b "" fontSize g stB r colWidths lh rOps rH stC hrD
              rw [hs1] at hsplD
              simp only [Except.ok.injEq, Prod.mk.injEq] at hsplD
              obtain ⟨hclEq, hrhEq⟩ := hsplD
              subst hclEq
              subst hrhEq
              have hopsB2 : hOps =
                  renderTableRowOps g hclB colWidths lh hH g.lMargin g.tMargin := hopsB
              have hstBp : stB.page = st.page + 1 + breakCount hOps := by rw [hstB]
              have hstBy : stB.y = g.tMargin + hH := by rw [hstB]
              have hstCp : stC.page =
                  st.page + 1 + breakCount hOps + breakCount rOps := by
                rw [hstC, hstBp]
              have hstCy : stC.y = g.tMargin + hH + rowH := by
                rw [hstC, hstBy]
              have hopsD2 : rOps =
                  renderTableRowOps g cl colWidths lh rowH g.lMargin
                    (g.tMargin + hH) := by
                rw [hopsD, hstBy]
              have hinv := ih (idx + 1) stC ps2 stF2 hrec
              rw [hstBp, hstBy]
              constructor
              · -- noHdrOld
                intro q hq
                rw [filter_page_cons_ne q _ _ (by omega : st.page + 1 ≠ q),
                    filter_page_cons_ne q _ _
                      (by omega : st.page + 1 + breakCount hOps ≠ q)]
                exact hinv.noHdrOld q (by omega)
              · -- oneHdrNew
                intro hnb q hq hne
                have hK1 : breakCount hOps = 0 := hnb _ (List.mem_cons_self _ _)
                have hK2 : breakCount rOps = 0 :=
                  hnb _ (List.mem_cons_of_mem _ (List.mem_cons_self _ _))
                have hnb2 : ∀ pl ∈ ps2, breakCount pl.ops = 0 := fun pl hpl =>
                  hnb pl (List.mem_cons_of_mem _ (List.mem_cons_of_mem _ hpl))
                have hCp : stC.page = st.page + 1 := by omega
                by_cases hq1 : q = st.page + 1
                · subst hq1
                  rw [filter_page_cons_eq (st.page + 1) _ _ rfl,
                      filter_page_cons_eq (st.page + 1) _ _
                        (by omega : st.page + 1 + breakCount hOps = st.page + 1)]
                  simp only [List.countP_cons]
                  have h2 := hinv.noHdrOld (st.page + 1) (by omega)
                  simp only [h2]
                  rfl
                · rw [filter_page_cons_ne q _ _ (by omega : st.page + 1 ≠ q),
                      filter_page_cons_ne q _ _
                        (by omega : st.page + 1 + breakCount hOps ≠ q)] at hne ⊢
                  exact hinv.oneHdrNew hnb2 q (by omega) hne
              · -- headFirst
                intro hnb q pl hq hhead
                have hK1 : breakCount hOps = 0 := hnb _ (List.mem_cons_self _ _)
                have hK2 : breakCount rOps = 0 :=
                  hnb _ (List.mem_cons_of_mem _ (List.mem_cons_self _ _))
                have hnb2 : ∀ pl ∈ ps2, breakCount pl.ops = 0 := fun pl hpl =>
                  hnb pl (List.mem_cons_of_mem _ (List.mem_cons_of_mem _ hpl))
                have hCp : stC.page = st.page + 1 := by omega
                by_cases hq1 : q = st.page + 1
                · subst hq1
                  rw [filter_page_cons_eq (st.page + 1) _ _ rfl] at hhead
                  simp only [List.head?_cons, Option.some.injEq] at hhead
                  subst hhead
                  rfl
                · rw [filter_page_cons_ne q _ _ (by omega : st.page + 1 ≠ q),
                      filter_page_cons_ne q _ _
                        (by omega : st.page + 1 + breakCount hOps ≠ q)] at hhead
                  exact hinv.headFirst hnb2 q pl (by omega) hhead
              · -- pagesGe
                intro pl hpl
                rcases List.mem_cons.mp hpl with rfl | hpl
                · exact Nat.le_succ _
                rcases List.mem_cons.mp hpl with rfl | hpl
                · show st.page ≤ st.page + 1 + breakCount hOps
                  omega
                · have h2 := hinv.pagesGe pl hpl
                  rw [hstCp] at h2
                  omega
              · -- boldHdr
                intro pl hpl hph
                rcases List.mem_cons.mp hpl with rfl | hpl
                · rfl
                rcases List.mem_cons.mp hpl with rfl | hpl
                · cases hph
                · exact hinv.boldHdr pl hpl hph
              · -- chain
                rw [List.chain'_cons]
                refine ⟨Or.inl ⟨by simp [endPage], rfl⟩, ?_⟩
                rw [List.chain'_cons']
                refine ⟨?_, hinv.chain⟩
                intro b2 hb2
                rcases hinv.link b2 hb2 with ⟨hp, hy⟩ | ⟨hp, hy⟩
                · refine Or.inl ⟨?_, ?_⟩
                  · rw [hp, hstCp]
                    simp [endPage]
                  · rw [hy, hstCy]
                · refine Or.inr ⟨?_, ?_⟩
                  · rw [hp, hstCp]
                    simp [endPage]
                  · exact hy
              · -- link
                intro pl hpl
                simp only [List.head?_cons, Option.some.injEq] at hpl
                subst hpl
                exact Or.inr ⟨rfl, rfl⟩
              · -- rowIdxs
                rw [filter_nothdr_cons_hdr _ _ rfl, filter_nothdr_cons_data _ _ rfl]
                simp only [List.map_cons]
                rw [hinv.rowIdxs]
                rfl
              · -- fitBounds
                intro pl hpl hf
                rcases List.mem_cons.mp hpl with rfl | hpl
                · have hlem := renderTableRowOps_fit b "B" fontSize
                    (headers.map PyCell.str) colWidths lh hclB hH g hlh hsplB
                    g.lMargin g.tMargin hf
                  rw [← hopsB2] at hlem
                  exact hlem
                rcases List.mem_cons.mp hpl with rfl | hpl
                · have hlem := renderTableRowOps_fit b "" fontSize r colWidths lh
                    cl rowH g hlh hs1 g.lMargin (g.tMargin + hH) hf
                  rw [← hopsD2] at hlem
                  exact hlem
                · exact hinv.fitBounds pl hpl hf
              · -- fitOrFresh
                intro pl hpl hph
                rcases List.mem_cons.mp hpl with rfl | hpl
                · cases hph
                rcases List.mem_cons.mp hpl with rfl | hpl
                · exact Or.inr ⟨_, List.mem_cons_self _ _, rfl, by simp [endPage], rfl⟩
                · rcases hinv.fitOrFresh pl hpl hph with hfit | ⟨hpl2, hmem2, hh2, hp2, hy2⟩
                  · exact Or.inl hfit
                  · exact Or.inr ⟨hpl2,
                      List.mem_cons_of_mem _ (List.mem_cons_of_mem _ hmem2), hh2, hp2, hy2⟩
      · -- fits on the current page: `_render_table_row` fires no break
        rw [if_neg hcond] at h
        rcases hrD : renderTableRow b "" fontSize g st r colWidths lh
            with e | prD <;> rw [hrD] at h <;> simp only [Except.bind, bind] at h
        · cases h
        · obtain ⟨rOps, rH, stC⟩ := prD
          rcases hrec : renderRows b g fontSize headers colWidths lh rest (idx + 1)
              stC with e | pr2 <;> rw [hrec] at h
          · cases h
          · obtain ⟨ps2, stF2⟩ := pr2
            simp only [Except.ok.injEq, Prod.mk.injEq] at h
            obtain ⟨rfl, rfl⟩ := h
            obtain ⟨clD, hsplD, hopsD, hstC⟩ :=
              renderTableRow_inv b "" fontSize g st r colWidths lh rOps rH stC hrD
            rw [hs1] at hsplD
            simp only [Except.ok.injEq, Prod.mk.injEq] at hsplD
            obtain ⟨hclEq, hrhEq⟩ := hsplD
            subst hclEq
            subst hrhEq
            have hK : breakCount rOps = 0 := by
              rw [hopsD]
              exact (renderTableRowOps_fit b "" fontSize r colWidths lh cl rowH g hlh
                hs1 g.lMargin st.y (le_of_not_lt hcond)).1
            have hstC2 : stC = ⟨st.page, st.y + rowH⟩ := by
              rw [hstC, hK, Nat.add_zero]
            subst hstC2
            have hinv := ih (idx + 1) ⟨st.page, st.y + rowH⟩ ps2 stF2 hrec
            constructor
            · -- noHdrOld
              intro q hq
              by_cases hq1 : q = st.page
              · subst hq1
                rw [filter_page_cons_eq st.page _ _ rfl]
                simp only [List.countP_cons]
                have h2 := hinv.noHdrOld st.page (le_refl _)
                simp only [h2]
                rfl
              · rw [filter_page_cons_ne q _ _ (by omega : st.page ≠ q)]
                exact hinv.noHdrOld q hq
            · -- oneHdrNew
              intro hnb q hq hne
              rw [filter_page_cons_ne q _ _ (by omega : st.page ≠ q)] at hne ⊢
              exact hinv.oneHdrNew
                (fun pl hpl => hnb pl (List.mem_cons_of_mem _ hpl)) q hq hne
            · -- headFirst
              intro hnb q pl hq hhead
              rw [filter_page_cons_ne q _ _ (by omega : st.page ≠ q)] at hhead
              exact hinv.headFirst
                (fun pl2 hpl2 => hnb pl2 (List.mem_cons_of_mem _ hpl2)) q pl hq hhead
            · -- pagesGe
              intro pl hpl
              rcases List.mem_cons.mp hpl with rfl | hpl
              · exact le_refl _
              · exact hinv.pagesGe pl hpl
            · -- boldHdr
              intro pl hpl hph
              rcases List.mem_cons.mp hpl with rfl | hpl
              · cases hph
              · exact hinv.boldHdr pl hpl hph
            · -- chain
              rw [List.chain'_cons']
              refine ⟨?_, hinv.chain⟩
              intro b2 hb2
              rcases hinv.link b2 hb2 with ⟨hp, hy⟩ | ⟨hp, hy⟩
              · refine Or.inl ⟨?_, hy⟩
                rw [hp]
                simp [endPage, hK]
              · refine Or.inr ⟨?_, hy⟩
                rw [hp]
                simp [endPage, hK]
            · -- link
              intro pl hpl
              simp only [List.head?_cons, Option.some.injEq] at hpl
              subst hpl
              exact Or.inl ⟨rfl, rfl⟩
            · -- rowIdxs
              rw [filter_nothdr_cons_data _ _ rfl]
              simp only [List.map_cons]
              rw [hinv.rowIdxs]
              rfl
            · -- fitBounds
              intro pl hpl hf
              rcases List.mem_cons.mp hpl with rfl | hpl
              · have hlem := renderTableRowOps_fit b "" fontSize r colWidths lh cl
                  rowH g hlh hs1 g.lMargin st.y hf
                rw [← hopsD] at hlem
                exact hlem
              · exact hinv.fitBounds pl hpl hf
            · -- fitOrFresh
              intro pl hpl hph
              rcases List.mem_cons.mp hpl with rfl | hpl
              · exact Or.inl (by simpa using le_of_not_lt hcond)
              · rcases hinv.fitOrFresh pl hpl hph with hfit | ⟨hpl2, hmem2, hh2, hp2, hy2⟩
                · exact Or.inl hfit
                · exact Or.inr ⟨hpl2, List.mem_cons_of_mem _ hmem2, hh2, hp2, hy2⟩

/-- The line height `font_size * 0.5` is positive for every chosen font
size. -/
theorem tableFontSize_half_pos (m : ℚ) : 0 < tableFontSize m * (1 / 2) := by
  unfold tableFontSize
  split_ifs <;> norm_num

/-- Decomposition of a successful `_render_table` call: an initial bold
header placement, followed by a row-loop output satisfying `RowsInv` from
the cursor the header render left behind (its page advanced by the header's
automatic breaks, its y just below the header); when the header fits under
the page-break trigger, its render fires no automatic break and its draws
stay within its vertical extent. -/
theorem renderTable_structure (b : Backend) (g : Geom) (st0 : PdfState)
    (headers : List String) (rows : List (List PyCell))
    (P : List Placement) (stF : PdfState)
    (h : renderTable b g st0 headers rows = .ok (P, stF)) :
    ∃ (st1 : PdfState) (hH0 : ℚ) (hops : List Draw) (ps : List Placement),
      P = ⟨true, 0, st1.page, st1.y, hH0, "B", hops⟩ :: ps ∧
      RowsInv g ⟨st1.page + breakCount hops, st1.y + hH0⟩ 0 rows.length ps ∧
      (st1.y + hH0 ≤ g.trigger →
        breakCount hops = 0 ∧
        ∀ d ∈ hops, st1.y ≤ drawY d ∧ drawY d + drawH d ≤ st1.y + hH0) := by
  unfold renderTable at h
  rcases hcw : computeColWidths b g.epw headers rows with e | colWidths <;>
    rw [hcw] at h <;> simp only [Except.bind, bind] at h
  · cases h
  · rcases hsh0 : splitRowCells b "B" (tableFontSize (listMinD colWidths g.epw))
        ((normalizeTable headers rows).1.map PyCell.str) colWidths
        (tableFontSize (listMinD colWidths g.epw) * (1 / 2)) with e | prh <;>
      rw [hsh0] at h <;> simp only [Except.bind, bind] at h
    · cases h
    · obtain ⟨hcl0, hH0⟩ := prh
      rcases hr0 : renderTableRow b "B" (tableFontSize (listMinD colWidths g.epw)) g
          (if st0.y + hH0 > g.trigger then addPage g st0 else st0)
          ((normalizeTable headers rows).1.map PyCell.str) colWidths
          (tableFontSize (listMinD colWidths g.epw) * (1 / 2)) with e | pr0 <;>
        rw [hr0] at h <;> simp only [Except.bind, bind] at h
      · cases h
      · obtain ⟨hops, hH2, st2⟩ := pr0
        rcases hrr : renderRows b g (tableFontSize (listMinD colWidths g.epw))
            (normalizeTable headers rows).1 colWidths
            (tableFontSize (listMinD colWidths g.epw) * (1 / 2))
            (normalizeTable headers rows).2 0 st2 with e | pr2 <;> rw [hrr] at h
        · cases h
        · obtain ⟨ps, stF2⟩ := pr2
          simp only [Except.ok.injEq, Prod.mk.injEq] at h
          obtain ⟨rfl, rfl⟩ := h
          obtain ⟨cl0, hspl0, hops0, hst2⟩ :=
            renderTableRow_inv b "B" (tableFontSize (listMinD colWidths g.epw)) g
              (if st0.y + hH0 > g.trigger then addPage g st0 else st0)
              ((normalizeTable headers rows).1.map PyCell.str) colWidths
              (tableFontSize (listMinD colWidths g.epw) * (1 / 2)) hops hH2 st2 hr0
          rw [hsh0] at hspl0
          simp only [Except.ok.injEq, Prod.mk.injEq] at hspl0
          obtain ⟨hclEq, hhEq⟩ := hspl0
          subst hclEq
          subst hhEq
          have hlh : 0 < tableFontSize (listMinD colWidths g.epw) * (1 / 2) :=
            tableFontSize_half_pos _
          subst hst2
          have hinv := renderRows_inv b g (tableFontSize (listMinD colWidths g.epw))
            (normalizeTable headers rows).1 colWidths
            (tableFontSize (listMinD colWidths g.epw) * (1 / 2)) hlh
            (normalizeTable headers rows).2 0 _ ps stF2 hrr
          have hn : (normalizeTable headers rows).2.length = rows.length := by
            simp [normalizeTable]
          rw [hn] at hinv
          refine ⟨(if st0.y + hH0 > g.trigger then addPage g st0 else st0), hH0, hops,
            ps, rfl, hinv, ?_⟩
          intro hf
          have hlem := renderTableRowOps_fit b "B"
            (tableFontSize (listMinD colWidths g.epw))
            ((normalizeTable headers rows).1.map PyCell.str) colWidths
            (tableFontSize (listMinD colWidths g.epw) * (1 / 2)) hcl0 hH0 g hlh hsh0
            g.lMargin (if st0.y + hH0 > g.trigger then addPage g st0 else st0).y hf
          rw [← hops0] at hlem
          exact hlem

/-- C1 (amended): header repetition holds for tables none of whose renders
fire the backend's automatic page break — in particular whenever every
placement (header and data rows) fits within the usable page height
(`yStart + height ≤ page_break_trigger`).  Then every placement's ops are
break-free, so the pages the table touches are exactly the pages its
placements start on; each such page carries exactly one header draw, it
comes before every data row on that page, and it is in bold; and consecutive
placements stack downward (each height counting toward the vertical budget)
or start a fresh page at the top margin.  Without the fitting hypothesis the
property fails in the code: a row taller than the remaining fresh-page space
spills onto extra pages through fpdf's automatic page break
(`set_auto_page_break(auto=True)`, line 186) with no header re-draw on those
pages, so a table can span N pages with fewer than N header draws — see the
counterexample. -/
theorem renderTable_header_once_per_page (b : Backend) (g : Geom) (st0 : PdfState)
    (headers : List String) (rows : List (List PyCell))
    (P : List Placement) (stF : PdfState)
    (h : renderTable b g st0 headers rows = .ok (P, stF))
    (hfit : ∀ pl ∈ P, pl.yStart + pl.height ≤ g.trigger) :
    (∀ pl ∈ P, breakCount pl.ops = 0) ∧
    (∀ q, P.filter (fun pl => pl.page == q) ≠ [] →
      ((P.filter (fun pl => pl.page == q)).countP (fun pl => pl.isHeader) = 1 ∧
       ∃ pl, (P.filter (fun pl2 => pl2.page == q)).head? = some pl ∧
         pl.isHeader = true ∧ pl.style = "B")) ∧
    List.Chain' (placeStep g) P := by
  obtain ⟨st1, hH0, hops, ps, rfl, hinv, hhdr⟩ :=
    renderTable_structure b g st0 headers rows P stF h
  have hf0 : st1.y + hH0 ≤ g.trigger := hfit _ (List.mem_cons_self _ _)
  obtain ⟨hk0, _⟩ := hhdr hf0
  simp only [hk0, Nat.add_zero] at hinv
  have hnb : ∀ pl ∈ ps, breakCount pl.ops = 0 := fun pl hpl =>
    (hinv.fitBounds pl hpl (hfit pl (List.mem_cons_of_mem _ hpl))).1
  refine ⟨?_, ?_, ?_⟩
  · intro pl hpl
    rcases List.mem_cons.mp hpl with rfl | hpl
    · exact hk0
    · exact hnb pl hpl
  · intro q hne
    by_cases hq : st1.page = q
    · subst hq
      rw [filter_page_cons_eq st1.page _ _ rfl] at hne ⊢
      have h2 := hinv.noHdrOld st1.page (le_refl _)
      constructor
      · simp only [List.countP_cons, h2]
        rfl
      · exact ⟨_, rfl, rfl, rfl⟩
    · rw [filter_page_cons_ne q _ _ hq] at hne ⊢
      rcases hfq : ps.filter (fun pl => pl.page == q) with _ | ⟨a, t⟩
      · rw [hfq] at hne
        cases hne rfl
      · have hamem : a ∈ ps.filter (fun pl => pl.page == q) := by
          rw [hfq]
          exact List.mem_cons_self _ _
        have hamem2 := List.mem_filter.mp hamem
        have hapage : a.page = q := by
          have := hamem2.2
          simpa using this
        have hge : st1.page ≤ q := by
          have := hinv.pagesGe a hamem2.1
          simpa [hapage] using this
        have hlt : st1.page < q := lt_of_le_of_ne hge hq
        refine ⟨hinv.oneHdrNew hnb q hlt hne, a, ?_, ?_, ?_⟩
        · rw [hfq]
          rfl
        · exact hinv.headFirst hnb q a hlt (by rw [hfq]; rfl)
        · exact hinv.boldHdr a hamem2.1 (hinv.headFirst hnb q a hlt (by rw [hfq]; rfl))
  · rw [List.chain'_cons']
    refine ⟨?_, hinv.chain⟩
    intro b2 hb2
    rcases hinv.link b2 hb2 with ⟨hp, hy⟩ | ⟨hp, hy⟩
    · refine Or.inl ⟨?_, hy⟩
      rw [hp]
      simp [endPage, hk0]
    · refine Or.inr ⟨?_, hy⟩
      rw [hp]
      simp [endPage, hk0]

/-- C3 (amended): row atomicity holds exactly for rows that fit under the
page-break trigger.  The row loop places every data row exactly once, in
order; each row's height is computed by `_split_row_cells` before any cursor
movement and a page break with a repeated bold header is taken before the
row if it would cross the trigger; a placement that fits under the trigger
(`yStart + height ≤ trigger`) fires no automatic page break and all its draw
instructions lie within its vertical extent `[yStart, yStart + height]`; and
each data row either fits under the trigger or starts at the top margin
immediately below the repeated bold header.  But a row whose height exceeds
the usable page height is NOT placed whole: fpdf's automatic page break
splits it, spilling each cell line whose bottom edge crosses the trigger
onto its own fresh page (the ops record a break per spilled cell), and no
warning of any kind is logged in that pathological case, since the module
contains no logging call — see the counterexample. -/
theorem renderTable_rows_atomic (b : Backend) (g : Geom) (st0 : PdfState)
    (headers : List String) (rows : List (List PyCell))
    (P : List Placement) (stF : PdfState)
    (h : renderTable b g st0 headers rows = .ok (P, stF)) :
    ((P.filter (fun pl => !pl.isHeader)).map (fun pl => pl.rowIdx) =
      List.range rows.length) ∧
    (∀ pl ∈ P, pl.yStart + pl.height ≤ g.trigger →
      breakCount pl.ops = 0 ∧
      ∀ d ∈ pl.ops,
        pl.yStart ≤ drawY d ∧ drawY d + drawH d ≤ pl.yStart + pl.height) ∧
    (∀ pl ∈ P, pl.isHeader = false →
      pl.yStart + pl.height ≤ g.trigger ∨
      ∃ hpl, hpl ∈ P ∧ hpl.isHeader = true ∧ endPage hpl = pl.page ∧
        pl.yStart = g.tMargin + hpl.height) := by
  obtain ⟨st1, hH0, hops, ps, rfl, hinv, hhdr⟩ :=
    renderTable_structure b g st0 headers rows P stF h
  refine ⟨?_, ?_, ?_⟩
  · rw [filter_nothdr_cons_hdr _ _ rfl, hinv.rowIdxs, List.range_eq_range']
  · intro pl hpl hf
    rcases List.mem_cons.mp hpl with rfl | hpl
    · exact hhdr hf
    · exact hinv.fitBounds pl hpl hf
  · intro pl hpl hph
    rcases List.mem_cons.mp hpl with rfl | hpl
    · cases hph
    · rcases hinv.fitOrFresh pl hpl hph with hfit | ⟨hpl2, hmem2, hh2, hp2, hy2⟩
      · exact Or.inl hfit
      · exact Or.inr ⟨hpl2, List.mem_cons_of_mem _ hmem2, hh2, hp2, hy2⟩

/-! ## C1/C3: concrete table runs -/

/-- A compact page geometry for concrete runs: effective width 10, margins 1,
page-break trigger 5 (usable page height 4). -/
def gTiny : Geom := ⟨10, 1, 1, 5⟩

/-- The placements of the over-tall-row run below: the header on page 1; the
single data row (height 6 > usable height 4) triggers the loop's explicit
break, so the bold header is repeated at the top of page 2 and the row
starts below it — but both its cell lines have bottom edges past the
trigger, so each one fires an automatic page break and lands at the top
margin of its own fresh page (pages 3 and 4), with no header there. -/
def tinyPlacements : List Placement :=
  [⟨true, 0, 1, 1, 3, "B", [.textCell 1 1 10 3 "h" "LTRB"]⟩,
   ⟨true, 0, 2, 1, 3, "B", [.textCell 1 1 10 3 "h" "LTRB"]⟩,
   ⟨false, 0, 2, 4, 6, "", [.pageBreak, .textCell 1 1 10 3 "a" "LTR",
                            .pageBreak, .textCell 1 1 10 3 "b" "LBR"]⟩]

/-- Concrete evaluation of `_render_table` on a one-column table whose single
row wraps to two lines under `bkChars` (row height 6 > usable height 4): the
row splits across pages 3 and 4 and the final cursor is on page 4. -/
theorem eval_renderTable_tiny :
    renderTable bkChars gTiny ⟨1, 1⟩ ["h"] [[PyCell.str "ab"]] =
      .ok (tinyPlacements, ⟨4, 10⟩) := by
  have hgh : getImagePath (PyCell.str "h") = none := by decide
  have hgab : getImagePath (PyCell.str "ab") = none := by decide
  have hn : normalizeTable ["h"] [[PyCell.str "ab"]] = (["h"], [[PyCell.str "ab"]]) := by
    decide
  have hc : colCount ["h"] [[PyCell.str "ab"]] = 1 := by decide
  have hdataH : ("h".data.map (fun c => String.mk [c])) = ["h"] := by decide
  have hdataAB : ("ab".data.map (fun c => String.mk [c])) = ["a", "b"] := by decide
  have ht2 : Int.toNat 2 = 2 := rfl
  have hqh : ("h".length : ℚ) = 1 := by rfl
  have hqab : ("ab".length : ℚ) = 2 := by rfl
  simp only [renderTable, computeColWidths, computeRawWidths, hn, hc, gTiny,
    tinyPlacements]
  norm_num [List.range_succ, exceptMap, columnCells, rawColWidth, cellRawWidth,
    hgh, hgab, bkChars, cellText, List.foldlM, pyOrQ, listMinD, tableFontSize,
    splitRowCells, splitCellsAux, splitCell, wrapOrFallback, hdataH, hdataAB,
    hqh, hqab, renderTableRow, renderRows, renderTableRowOps, rowLineOps,
    textLineOps, breakCount, Draw.isBreak, List.countP_cons, List.countP_nil,
    cellBorder, addPage, Except.bind, bind, pure, Except.pure,
    sup_eq_max, max_def, min_def, List.flatMap_cons, List.flatMap_nil,
    List.getD, imageCellOps, ht2]

/-- A slightly taller page for a run where everything fits: trigger 8
(usable page height 7). -/
def gTiny2 : Geom := ⟨10, 1, 1, 8⟩

/-- The placements of the fitting run below: two single-line data rows; the
second does not fit under the first, so the loop breaks and repeats the bold
header at the top of page 2.  Every placement fits under the trigger and no
automatic break fires. -/
def fitPlacements : List Placement :=
  [⟨true, 0, 1, 1, 3, "B", [.textCell 1 1 10 3 "h" "LTRB"]⟩,
   ⟨false, 0, 1, 4, 3, "", [.textCell 1 4 10 3 "a" "LTRB"]⟩,
   ⟨true, 1, 2, 1, 3, "B", [.textCell 1 1 10 3 "h" "LTRB"]⟩,
   ⟨false, 1, 2, 4, 3, "", [.textCell 1 4 10 3 "b" "LTRB"]⟩]

/-- Concrete evaluation of `_render_table` on a one-column, two-row table in
which the header and every row fit within the usable page height. -/
theorem eval_renderTable_fit :
    renderTable bkChars gTiny2 ⟨1, 1⟩ ["h"] [[PyCell.str "a"], [PyCell.str "b"]] =
      .ok (fitPlacements, ⟨2, 7⟩) := by
  have hgh : getImagePath (PyCell.str "h") = none := by decide
  have hga : getImagePath (PyCell.str "a") = none := by decide
  have hgb : getImagePath (PyCell.str "b") = none := by decide
  have hn : normalizeTable ["h"] [[PyCell.str "a"], [PyCell.str "b"]] =
      (["h"], [[PyCell.str "a"], [PyCell.str "b"]]) := by decide
  have hc : colCount ["h"] [[PyCell.str "a"], [PyCell.str "b"]] = 1 := by decide
  have hdataH : ("h".data.map (fun c => String.mk [c])) = ["h"] := by decide
  have hdataA : ("a".data.map (fun c => String.mk [c])) = ["a"] := by decide
  have hdataB : ("b".data.map (fun c => String.mk [c])) = ["b"] := by decide
  have ht1 : Int.toNat 1 = 1 := rfl
  have hqh : ("h".length : ℚ) = 1 := by rfl
  have hqa : ("a".length : ℚ) = 1 := by rfl
  have hqb : ("b".length : ℚ) = 1 := by rfl
  simp only [renderTable, computeColWidths, computeRawWidths, hn, hc, gTiny2,
    fitPlacements]
  norm_num [List.range_succ, exceptMap, columnCells, rawColWidth, cellRawWidth,
    hgh, hga, hgb, bkChars, cellText, List.foldlM, pyOrQ, listMinD, tableFontSize,
    splitRowCells, splitCellsAux, splitCell, wrapOrFallback, hdataH, hdataA,
    hdataB, hqh, hqa, hqb, renderTableRow, renderRows, renderTableRowOps,
    rowLineOps, textLineOps, breakCount, Draw.isBreak, List.countP_cons,
    List.countP_nil, cellBorder, addPage, Except.bind, bind, pure, Except.pure,
    sup_eq_max, max_def, min_def, List.flatMap_cons, List.flatMap_nil,
    List.getD, imageCellOps, ht1]

/-- Every placement of the fitting run fits under the page-break trigger. -/
theorem fitPlacements_fit :
    ∀ pl ∈ fitPlacements, pl.yStart + pl.height ≤ gTiny2.trigger := by
  intro pl hpl
  fin_cases hpl <;> norm_num [gTiny2]

/-- C1 counterexample: a table that spans four pages but draws its header
only twice.  The single data row is taller than the usable page, so after
the loop's explicit break (header repeated on page 2) each of its two cell
lines fires an automatic page break, landing on pages 3 and 4.  The final
cursor page is 4 while every placement starts on page 1 or 2 and only two
placements are headers: pages 3 and 4 receive table content (the data row's
spilled cells, via the two recorded breaks) but no header draw — refuting
"drawn exactly N times, once at the top of the table content on each
page". -/
theorem renderTable_missing_headers_cex :
    renderTable bkChars gTiny ⟨1, 1⟩ ["h"] [[PyCell.str "ab"]] =
      .ok (tinyPlacements, ⟨4, 10⟩) ∧
    tinyPlacements.countP (fun pl => pl.isHeader) = 2 ∧
    (∀ pl ∈ tinyPlacements, pl.page ≤ 2) ∧
    breakCount (tinyPlacements.getD 2 ⟨false, 0, 0, 0, 0, "", []⟩).ops = 2 ∧
    endPage (tinyPlacements.getD 2 ⟨false, 0, 0, 0, 0, "", []⟩) = 4 :=
  ⟨eval_renderTable_tiny, rfl, by decide, rfl, rfl⟩

/-- Witness for C1's amended theorem at the fitting two-page run: two pages,
one bold header first on each. -/
theorem renderTable_header_once_per_page_witness :
    (∀ pl ∈ fitPlacements, pl.yStart + pl.height ≤ gTiny2.trigger) ∧
    ((∀ pl ∈ fitPlacements, breakCount pl.ops = 0) ∧
     (∀ q, fitPlacements.filter (fun pl => pl.page == q) ≠ [] →
       ((fitPlacements.filter (fun pl => pl.page == q)).countP
           (fun pl => pl.isHeader) = 1 ∧
        ∃ pl, (fitPlacements.filter (fun pl2 => pl2.page == q)).head? = some pl ∧
          pl.isHeader = true ∧ pl.style = "B")) ∧
     List.Chain' (placeStep gTiny2) fitPlacements) :=
  ⟨fitPlacements_fit,
   renderTable_header_once_per_page bkChars gTiny2 ⟨1, 1⟩ ["h"]
     [[PyCell.str "a"], [PyCell.str "b"]] fitPlacements ⟨2, 7⟩
     eval_renderTable_fit fitPlacements_fit⟩

/-- C3 counterexample: a row taller than the usable page is split across
pages, and no warning is logged.  At the concrete run the data row (height 6
against usable height 4) has its two cell lines drawn on two different fresh
pages: its ops record an automatic page break before each line and both
lines are drawn at the top margin (y = 1), outside the placement's extent
`[4, 10]` on its starting page — and the whole trace contains no warning
instruction (the module has no logging call). -/
theorem renderTable_row_split_no_warning_cex :
    renderTable bkChars gTiny ⟨1, 1⟩ ["h"] [[PyCell.str "ab"]] =
      .ok (tinyPlacements, ⟨4, 10⟩) ∧
    gTiny.trigger - gTiny.tMargin <
      (tinyPlacements.getD 2 ⟨false, 0, 0, 0, 0, "", []⟩).height ∧
    (tinyPlacements.getD 2 ⟨false, 0, 0, 0, 0, "", []⟩).ops =
      [.pageBreak, .textCell 1 1 10 3 "a" "LTR",
       .pageBreak, .textCell 1 1 10 3 "b" "LBR"] ∧
    (∀ pl ∈ tinyPlacements, ∀ d ∈ pl.ops, d.isWarn = false) := by
  refine ⟨eval_renderTable_tiny, ?_, rfl, by decide⟩
  norm_num [gTiny, tinyPlacements, List.getD]

/-- Witness for C3's amended theorem at the over-tall-row run. -/
theorem renderTable_rows_atomic_witness :
    (renderTable bkChars gTiny ⟨1, 1⟩ ["h"] [[PyCell.str "ab"]] =
      .ok (tinyPlacements, ⟨4, 10⟩)) ∧
    (((tinyPlacements.filter (fun pl => !pl.isHeader)).map (fun pl => pl.rowIdx) =
        List.range 1) ∧
     (∀ pl ∈ tinyPlacements, pl.yStart + pl.height ≤ gTiny.trigger →
       breakCount pl.ops = 0 ∧
       ∀ d ∈ pl.ops,
         pl.yStart ≤ drawY d ∧ drawY d + drawH d ≤ pl.yStart + pl.height) ∧
     (∀ pl ∈ tinyPlacements, pl.isHeader = false →
       pl.yStart + pl.height ≤ gTiny.trigger ∨
       ∃ hpl, hpl ∈ tinyPlacements ∧ hpl.isHeader = true ∧ endPage hpl = pl.page ∧
         pl.yStart = gTiny.tMargin + hpl.height)) :=
  ⟨eval_renderTable_tiny,
   renderTable_rows_atomic bkChars gTiny ⟨1, 1⟩ ["h"] [[PyCell.str "ab"]]
     tinyPlacements ⟨4, 10⟩ eval_renderTable_tiny⟩

/-! ## C6: determinism of `make_brief_pdf` and the output timestamp -/

/-- `++` on strings cancels a shared prefix and suffix. -/
theorem string_append_cancel (p s t1 t2 : String)
    (h : p ++ t1 ++ s = p ++ t2 ++ s) : t1 = t2 := by
  have hd : (p ++ t1 ++ s).data = (p ++ t2 ++ s).data := congrArg String.data h
  rw [data_append2, data_append2, data_append2, data_append2] at hd
  have h1 := List.append_cancel_right hd
  have h2 := List.append_cancel_left h1
  cases t1
  cases t2
  exact congrArg String.mk h2

/-- `bkLen`'s wrapper never fails, so every `multi_cell` call succeeds. -/
theorem doMultiCell_bkLen_ok (style : String) (size w h : ℚ) (txt : String)
    (st : PdfState) :
    ∃ st2, doMultiCell bkLen style size w h txt st = .ok (.multiCell w h txt, st2) :=
  ⟨_, rfl⟩

/-- Under `bkLen` the shared per-line dispatch always succeeds. -/
theorem renderPlainLine_bkLen_ok (g : Geom) (line : String) (st : PdfState) :
    ∃ r, renderPlainLine bkLen g line st = .ok r := by
  unfold renderPlainLine renderListItem doMultiCell
  simp only [bkLen, Except.mapError, Except.bind, bind]
  split_ifs <;> exact ⟨_, rfl⟩

/-- Under `bkLen` the summary-page loop always succeeds. -/
theorem renderSummaryLines_bkLen_ok (g : Geom) :
    ∀ (ls : List String) (st : PdfState),
      ∃ r, renderSummaryLines bkLen g ls st = .ok r := by
  intro ls
  induction ls with
  | nil => exact fun st => ⟨_, rfl⟩
  | cons l rest ih =>
    intro st
    obtain ⟨r1, h1⟩ := renderPlainLine_bkLen_ok g l st
    obtain ⟨evs1, st1⟩ := r1
    obtain ⟨r2, h2⟩ := ih st1
    obtain ⟨evs2, st2⟩ := r2
    refine ⟨(evs1 ++ evs2, st2), ?_⟩
    simp only [renderSummaryLines, h1, h2, Except.bind, bind]

/-- Under `bkLen` the storyboard loop succeeds on the no-scenes storyboard
(no line starts a table). -/
theorem renderBodyLines_bkLen_noScenes (g : Geom) (st : PdfState) :
    ∃ r, renderBodyLines bkLen g
      ["### Scene-by-Scene (Reference Video)", "", "> No scenes provided."] st =
        .ok r := by
  obtain ⟨r1, h1⟩ := renderPlainLine_bkLen_ok g "### Scene-by-Scene (Reference Video)" st
  obtain ⟨evs1, st1⟩ := r1
  obtain ⟨r2, h2⟩ := renderPlainLine_bkLen_ok g "" st1
  obtain ⟨evs2, st2⟩ := r2
  obtain ⟨r3, h3⟩ := renderPlainLine_bkLen_ok g "> No scenes provided." st2
  obtain ⟨evs3, st3⟩ := r3
  refine ⟨(evs1 ++ (evs2 ++ (evs3 ++ [])), st3), ?_⟩
  unfold renderBodyLines
  rw [if_neg (by decide)]
  rw [h1]
  simp only [Except.bind, bind]
  unfold renderBodyLines
  rw [if_neg (by decide)]
  rw [h2]
  simp only [Except.bind, bind]
  unfold renderBodyLines
  rw [if_neg (by decide)]
  rw [h3]
  simp only [Except.bind, bind]
  unfold renderBodyLines
  rfl

/-- The analyzer of the determinism counterexample: no scenes, minimal
metadata. -/
def cexAnalyzer : AnalyzerDoc :=
  ⟨"tiktok", "9:16", none, [], "", "", "", [], none, "120", []⟩

/-- The product facts of the determinism counterexample: all absent/empty. -/
def cexFacts : ProductFacts := ⟨none, none, [], [], []⟩

/-- The counterexample render succeeds (its storyboard has no table and
`bkLen` never fails). -/
theorem makeBriefPdf_cex_ok :
    ∃ o tr, makeBriefPdf bkLen cexAnalyzer ⟨⟩ cexFacts "Brief" (some "P") 5 =
      .ok (o, tr) := by
  obtain ⟨r1, h1⟩ := renderSummaryLines_bkLen_ok (geomFor "P")
    (summaryLines cexFacts cexAnalyzer "Brief") ⟨1, (geomFor "P").tMargin⟩
  obtain ⟨evs1, st1⟩ := r1
  obtain ⟨r2, h2⟩ := renderBodyLines_bkLen_noScenes (geomFor "P")
    (addPage (geomFor "P") st1)
  obtain ⟨evs2, st2⟩ := r2
  have hstep : makeBriefPdf bkLen cexAnalyzer ⟨⟩ cexFacts "Brief" (some "P") 5 =
      (do
        let (evs1, st1) ← renderSummaryLines bkLen (geomFor "P")
          (summaryLines cexFacts cexAnalyzer "Brief") ⟨1, (geomFor "P").tMargin⟩
        let st2 := addPage (geomFor "P") st1
        let (evs2, _) ← renderBodyLines bkLen (geomFor "P")
          ["### Scene-by-Scene (Reference Video)", "", "> No scenes provided."] st2
        Except.ok ("P", (PEv.newPage :: PEv.setFont "" 12 :: evs1)
          ++ (PEv.newPage :: PEv.setFont "" 12 :: evs2))) := rfl
  refine ⟨"P", (PEv.newPage :: PEv.setFont "" 12 :: evs1)
    ++ (PEv.newPage :: PEv.setFont "" 12 :: evs2), ?_⟩
  rw [hstep, h1]
  simp only [Except.bind, bind]
  rw [h2]

/-- C6 (amended): `make_brief_pdf` is deterministic up to the output
timestamp.  The render reads only its explicit inputs — analyzer, script,
product facts, title, orientation, column threshold and the backend (string
widths, wrapper, image files on disk) — so two runs on equal inputs produce
the identical orientation and instruction trace however the wall clock
differs.  But the output bytes also carry the `/CreationDate` that
`pdf.output()` stamps from the wall clock, so on a successful render the two
byte streams agree exactly when the timestamps agree: identical draw traces
do NOT give identical output bytes. -/
theorem makeBriefPdf_trace_deterministic (b : Backend) (analyzer : AnalyzerDoc)
    (script : ScriptDoc) (pf : ProductFacts) (title : String)
    (orientation : Option String) (columnThreshold : ℕ) (t1 t2 : String) :
    ((makeBriefPdfOutput b analyzer script pf title orientation columnThreshold
        t1).map (fun r => (r.1, r.2.1)) =
      (makeBriefPdfOutput b analyzer script pf title orientation columnThreshold
        t2).map (fun r => (r.1, r.2.1))) ∧
    (∀ o tr bytes1 bytes2,
      makeBriefPdfOutput b analyzer script pf title orientation columnThreshold t1 =
        .ok (o, tr, bytes1) →
      makeBriefPdfOutput b analyzer script pf title orientation columnThreshold t2 =
        .ok (o, tr, bytes2) →
      (bytes1 = bytes2 ↔ t1 = t2)) := by
  constructor
  · unfold makeBriefPdfOutput
    rcases hm : makeBriefPdf b analyzer script pf title orientation columnThreshold
      with e | pr <;> simp [Except.bind, bind, Except.map]
  · intro o tr bytes1 bytes2 h1 h2
    unfold makeBriefPdfOutput at h1 h2
    rcases hm : makeBriefPdf b analyzer script pf title orientation columnThreshold
      with e | pr
    · rw [hm] at h1
      simp only [Except.bind, bind] at h1
      cases h1
    · obtain ⟨o2, tr2⟩ := pr
      rw [hm] at h1 h2
      simp only [Except.bind, bind, Except.ok.injEq, Prod.mk.injEq] at h1 h2
      obtain ⟨ho1, htr1, hb1⟩ := h1
      obtain ⟨ho2, htr2, hb2⟩ := h2
      subst hb1
      subst hb2
      constructor
      · intro hb
        simp only [pdfOutputBytes, Prod.mk.injEq, true_and] at hb
        exact string_append_cancel "/CreationDate (D:" ")" t1 t2 hb
      · intro ht
        rw [ht]

/-- Witness for C6's amended theorem: at concrete inputs and two concrete
timestamps the orientation-and-trace projections of the two runs agree. -/
theorem makeBriefPdf_trace_deterministic_witness :
    (makeBriefPdfOutput bkLen cexAnalyzer ⟨⟩ cexFacts "Brief" (some "P") 5
        "20240101120000").map (fun r => (r.1, r.2.1)) =
      (makeBriefPdfOutput bkLen cexAnalyzer ⟨⟩ cexFacts "Brief" (some "P") 5
        "20250101120000").map (fun r => (r.1, r.2.1)) :=
  (makeBriefPdf_trace_deterministic bkLen cexAnalyzer ⟨⟩ cexFacts "Brief" (some "P")
    5 "20240101120000" "20250101120000").1

/-- C6 counterexample: two runs of the program on identical inputs at
different wall-clock times produce the identical orientation and instruction
trace, but different output byte streams — `pdf.output()` stamps the
`/CreationDate` metadata from the clock, refuting "and hence identical
output bytes". -/
theorem makeBriefPdf_creationDate_cex :
    ((makeBriefPdfOutput bkLen cexAnalyzer ⟨⟩ cexFacts "Brief" (some "P") 5
        "20240101120000").map (fun r => (r.1, r.2.1)) =
      (makeBriefPdfOutput bkLen cexAnalyzer ⟨⟩ cexFacts "Brief" (some "P") 5
        "20250101120000").map (fun r => (r.1, r.2.1))) ∧
    makeBriefPdfOutput bkLen cexAnalyzer ⟨⟩ cexFacts "Brief" (some "P") 5
        "20240101120000" ≠
      makeBriefPdfOutput bkLen cexAnalyzer ⟨⟩ cexFacts "Brief" (some "P") 5
        "20250101120000" := by
  obtain ⟨o, tr, hok⟩ := makeBriefPdf_cex_ok
  constructor
  · unfold makeBriefPdfOutput
    rw [hok]
    rfl
  · unfold makeBriefPdfOutput
    rw [hok]
    simp only [Except.bind, bind]
    intro heq
    simp only [Except.ok.injEq, Prod.mk.injEq, pdfOutputBytes, true_and] at heq
    have h4 := string_append_cancel "/CreationDate (D:" ")" "20240101120000"
      "20250101120000" heq
    exact absurd h4 (by decide)

end BriefGen
